import Mathlib

set_option maxHeartbeats 1000000

/-!
Verification development for the rustdoc-to-API-graph parser of
`crate-api` (`src/crates/crate-api/src/rustdoc.rs`).

The raw input model (`rustdoc_json_types_fork`) and the output graph model
(`crate::Api` and friends, which live outside the provided sources) are
shallowly embedded here; the resolution engine (`RustDocParser` and
`_convert_path_kind`) is translated function by function from the source.

Conventions of the embedding:
- Raw opaque ids (`rustdoc_json_types_fork::Id`, a string in the source) are
  modelled as natural numbers; the engine uses them only for lookup/equality.
- `HashMap`s are modelled as association lists (`assocLookup` finds the first
  matching key; the engine only ever inserts a key after a failed lookup, so
  first-match and overwrite semantics agree).
- Arena handles (`CrateId`, `PathId`, `ItemId`) are list indices; an arena
  push appends and returns the previous length.
- Panics (`expect`, `unwrap`, `assert_ne!`, `unreachable!`) are modelled by
  the `Res.panicked` outcome; a panic aborts the whole parse, so state built
  before a panic in the same step is discarded.
- The unbounded `while let` work loop is modelled with explicit fuel;
  exhausting the fuel yields the distinguished outcome `Res.fuelOut`
  (the source would simply keep looping).
- The rust `Macro` item/path kind is spelled `MacroDecl` here.
-/

namespace CrateApi

/-- Raw opaque id from the rustdoc JSON document (`rustdoc_json_types_fork::Id`). -/
abbrev RawId := Nat

/-- Handle into the crates arena (`crate::CrateId`). -/
abbrev CrateId := Nat

/-- Handle into the paths arena (`crate::PathId`). -/
abbrev PathId := Nat

/-- Handle into the items arena (`crate::ItemId`). -/
abbrev ItemId := Nat

/-- A source span. The raw span and `crate::Span` have the same fields and the
parser copies them across verbatim, so one type serves for both. -/
structure Span where
  filename : String
  begin : Nat × Nat
  «end» : Nat × Nat
deriving DecidableEq, Repr

/-- `rustdoc_json_types_fork::ItemKind`: the discriminant stored in the path
table. -/
inductive ItemKind where
  | Module
  | ExternCrate
  | Import
  | Struct
  | StructField
  | Union
  | Enum
  | Variant
  | Function
  | Typedef
  | OpaqueTy
  | Constant
  | Trait
  | TraitAlias
  | Method
  | Impl
  | Static
  | ForeignType
  | MacroDecl
  | ProcAttribute
  | ProcDerive
  | AssocConst
  | AssocType
  | Primitive
  | Keyword
deriving DecidableEq, Repr

/-- `crate::PathKind`: the output path-kind enumeration (every `ItemKind`
except `StructField`, which is never turned into a path). -/
inductive PathKind where
  | Module
  | ExternCrate
  | Import
  | Struct
  | Union
  | Enum
  | Variant
  | Function
  | Typedef
  | OpaqueTy
  | Constant
  | Trait
  | TraitAlias
  | Method
  | Impl
  | Static
  | ForeignType
  | MacroDecl
  | ProcAttribute
  | ProcDerive
  | AssocConst
  | AssocType
  | Primitive
  | Keyword
deriving DecidableEq, Repr

/-- The payload of a raw item descriptor, restricted to the discriminants the
parser distinguishes.  `Module`, `Trait`, `Impl` and `Enum` carry their ordered
child-id lists, `Import` carries the imported name and optional target id; the
parser treats every remaining `rustdoc_json_types_fork::ItemEnum` variant
uniformly (the `_` arm of `_parse_item`), collapsed here into `OtherLeaf`. -/
inductive ItemEnum where
  | Module (items : List RawId)
  | Import (name : String) (id : Option RawId)
  | Trait (items : List RawId)
  | Impl (items : List RawId)
  | Enum (variants : List RawId)
  | OtherLeaf
deriving DecidableEq, Repr

/-- A raw item descriptor (`rustdoc_json_types_fork::Item`), restricted to the
fields the parser reads: `crate_id`, `name`, `span` and `inner`. -/
structure RawItem where
  crate_id : Nat
  name : Option String
  span : Option Span
  inner : ItemEnum
deriving DecidableEq, Repr

/-- A path-table entry (`rustdoc_json_types_fork::ItemSummary`). -/
structure ItemSummary where
  crate_id : Nat
  path : List String
  kind : ItemKind
deriving DecidableEq, Repr

/-- An external-crate registry entry (`rustdoc_json_types_fork::ExternalCrate`),
restricted to the `name` field the parser reads. -/
structure ExternalCrate where
  name : String
deriving DecidableEq, Repr

/-- The deserialized raw document (`rustdoc_json_types_fork::Crate`), restricted
to the fields the parser reads. -/
structure RawCrate where
  root : RawId
  index : List (RawId × RawItem)
  paths : List (RawId × ItemSummary)
  external_crates : List (Nat × ExternalCrate)
deriving DecidableEq, Repr

/-- Modelled from the spec: `crate::Crate` is `{name}` (spec section 3; the
type itself is not among the provided sources, only its use in
`rustdoc.rs`). -/
structure Crate where
  name : String
deriving DecidableEq, Repr

/-- `crate::Crate::new`. -/
def Crate.new (name : String) : Crate := { name }

/-- Modelled from the spec: `crate::Path` carries kind, dotted name, optional
crate handle, optional item handle, optional span and the ordered child-handle
list (spec section 3). -/
structure Path where
  kind : PathKind
  path : String
  crate_id : Option CrateId
  item_id : Option ItemId
  span : Option Span
  children : List PathId
deriving DecidableEq, Repr

/-- `crate::Path::new`: only kind and name are set, everything else empty. -/
def Path.new (kind : PathKind) (path : String) : Path :=
  { kind, path, crate_id := none, item_id := none, span := none, children := [] }

/-- Modelled from the spec: `crate::Item` is `{crate handle?, name?, span?}`
(spec section 3). -/
structure Item where
  crate_id : Option CrateId
  name : Option String
  span : Option Span
deriving DecidableEq, Repr

/-- `crate::Item::new`: all fields empty. -/
def Item.new : Item :=
  { crate_id := none, name := none, span := none }

/-- Modelled from the spec: `crate::Api` is three append-only arenas plus one
optional root handle (spec sections 3 and 4.3); arenas are lists, a push
appends and hands back the index, lookup is `List.get?`. -/
structure Api where
  root_id : Option PathId
  crates : List Crate
  paths : List Path
  items : List Item
deriving DecidableEq, Repr

/-- The empty output graph (`crate::Api::default()`). -/
def Api.empty : Api :=
  { root_id := none, crates := [], paths := [], items := [] }

/-- First-match association-list lookup, standing in for `HashMap::get`. -/
def assocLookup {α : Type} (k : Nat) : List (Nat × α) → Option α
  | [] => none
  | (k', v) :: rest => if k = k' then some v else assocLookup k rest

/-- In-place update of one list entry, standing in for arena `get_mut`;
`none` when the handle is out of range (the source `expect`s there). -/
def listModifyO {α : Type} (l : List α) (i : Nat) (f : α → α) : Option (List α) :=
  match l[i]? with
  | none => none
  | some a => some (l.set i (f a))

/-- The mutable state of `RustDocParser`: the work queue, the deferred-import
task list, the accumulating output graph, and the three memo tables. -/
structure ParserState where
  unprocessed : List (Option PathId × RawId)
  deferred_imports : List (PathId × String × RawId)
  api : Api
  crate_ids : List (Nat × Option CrateId)
  path_ids : List (RawId × Option PathId)
  item_ids : List (RawId × Option ItemId)
deriving DecidableEq, Repr

/-- Outcome of a fallible engine computation: normal result, panic (an
`expect`/`unwrap`/`assert`/`unreachable` abort in the source), or fuel
exhaustion of the modelled unbounded loop. -/
inductive Res (α : Type) where
  | ok : α → Res α
  | panicked : String → Res α
  | fuelOut : Res α
deriving DecidableEq, Repr

/-- Extract the value of an `ok` outcome, with a fallback default. -/
def Res.getOkD {α : Type} : Res α → α → α
  | Res.ok a, _ => a
  | _, d => d

/-- `_convert_path_kind`: the path-kind classification table.  Total on every
kind except `StructField`, which hits `unreachable!` in the source. -/
def _convert_path_kind : ItemKind → Res PathKind
  | ItemKind.Module => Res.ok PathKind.Module
  | ItemKind.ExternCrate => Res.ok PathKind.ExternCrate
  | ItemKind.Import => Res.ok PathKind.Import
  | ItemKind.Struct => Res.ok PathKind.Struct
  | ItemKind.Union => Res.ok PathKind.Union
  | ItemKind.Enum => Res.ok PathKind.Enum
  | ItemKind.Variant => Res.ok PathKind.Variant
  | ItemKind.Function => Res.ok PathKind.Function
  | ItemKind.Typedef => Res.ok PathKind.Typedef
  | ItemKind.OpaqueTy => Res.ok PathKind.OpaqueTy
  | ItemKind.Constant => Res.ok PathKind.Constant
  | ItemKind.Trait => Res.ok PathKind.Trait
  | ItemKind.TraitAlias => Res.ok PathKind.TraitAlias
  | ItemKind.Method => Res.ok PathKind.Method
  | ItemKind.Impl => Res.ok PathKind.Impl
  | ItemKind.Static => Res.ok PathKind.Static
  | ItemKind.ForeignType => Res.ok PathKind.ForeignType
  | ItemKind.MacroDecl => Res.ok PathKind.MacroDecl
  | ItemKind.ProcAttribute => Res.ok PathKind.ProcAttribute
  | ItemKind.ProcDerive => Res.ok PathKind.ProcDerive
  | ItemKind.AssocConst => Res.ok PathKind.AssocConst
  | ItemKind.AssocType => Res.ok PathKind.AssocType
  | ItemKind.Primitive => Res.ok PathKind.Primitive
  | ItemKind.Keyword => Res.ok PathKind.Keyword
  | ItemKind.StructField => Res.panicked ("These are handled by the Item")

/-- `RustDocParser::_parse_crate`: memoized resolution of a raw crate number.
Number 0 caches a negative result; any other number materializes one `Crate`
from the external-crate registry (panicking when the registry lacks it). -/
def _parse_crate (raw : RawCrate) (raw_crate_id : Nat) (s : ParserState) :
    Res (Option CrateId × ParserState) :=
  match assocLookup raw_crate_id s.crate_ids with
  | some crate_id => Res.ok (crate_id, s)
  | none =>
    if raw_crate_id ≠ 0 then
      match assocLookup raw_crate_id raw.external_crates with
      | none => Res.panicked ("all crate ids are in `external_crates`")
      | some raw_crate =>
        let crate_id := s.api.crates.length
        Res.ok (some crate_id,
          { s with
            api := { s.api with crates := s.api.crates ++ [Crate.new raw_crate.name] },
            crate_ids := (raw_crate_id, some crate_id) :: s.crate_ids })
    else
      Res.ok (none, { s with crate_ids := (raw_crate_id, none) :: s.crate_ids })

/-- `RustDocParser::_parse_path`: memoized resolution of a raw id to an
optional path handle.  An id with a path-table entry gets a fresh `Path`
(kind classified by `_convert_path_kind`), appended as a child of the parent
when there is one, and recorded as root when it is the first path ever
created; an id without an entry caches a negative result. -/
def _parse_path (raw : RawCrate) (parent_path_id : Option PathId)
    (raw_item_id : RawId) (crate_id : Option CrateId) (s : ParserState) :
    Res (Option PathId × ParserState) :=
  match assocLookup raw_item_id s.path_ids with
  | some path_id => Res.ok (path_id, s)
  | none =>
    match assocLookup raw_item_id raw.paths with
    | none =>
      Res.ok (none, { s with path_ids := (raw_item_id, none) :: s.path_ids })
    | some raw_path =>
      match assocLookup raw_item_id raw.index with
      | none => Res.panicked ("all item ids are in `index`")
      | some raw_item =>
        match _convert_path_kind raw_path.kind with
        | Res.panicked m => Res.panicked m
        | Res.fuelOut => Res.fuelOut
        | Res.ok kind =>
          let path1 :=
            { Path.new kind (String.intercalate ("::") raw_path.path) with
              crate_id := crate_id, span := raw_item.span }
          let path_id := s.api.paths.length
          let paths1 := s.api.paths ++ [path1]
          let pushedToParent :=
            match parent_path_id with
            | none => some paths1
            | some ppid =>
              listModifyO paths1 ppid
                (fun p => { p with children := p.children ++ [path_id] })
          match pushedToParent with
          | none => Res.panicked ("parent_path_id to always be valid")
          | some paths2 =>
            Res.ok (some path_id,
              { s with
                api :=
                  { s.api with
                    paths := paths2,
                    root_id := some (s.api.root_id.getD path_id) },
                path_ids := (raw_item_id, some path_id) :: s.path_ids })

/-- `RustDocParser::_parse_item`: memoized resolution of a raw id to an
optional item handle.  Containers (module/trait/impl/enum) enqueue their
children under the given path handle; an import enqueues its target and
records a deferred task; every other descriptor becomes an `Item`, setting
the item handle of the given path, after the root-must-exist assertion. -/
def _parse_item (raw : RawCrate) (raw_item_id : RawId) (path_id : Option PathId)
    (crate_id : Option CrateId) (s : ParserState) :
    Res (Option ItemId × ParserState) :=
  match assocLookup raw_item_id s.item_ids with
  | some item_id => Res.ok (item_id, s)
  | none =>
    match assocLookup raw_item_id raw.index with
    | none => Res.panicked ("all item ids are in `index`")
    | some raw_item =>
      match raw_item.inner with
      | ItemEnum.Module items =>
        Res.ok (none,
          { s with
            unprocessed := s.unprocessed ++ items.map (fun i => (path_id, i)),
            item_ids := (raw_item_id, none) :: s.item_ids })
      | ItemEnum.Import name target =>
        match target with
        | none => Res.panicked ("import target id is missing")
        | some raw_target_id =>
          match path_id with
          | none => Res.panicked ("import reached with no path handle")
          | some pid =>
            Res.ok (none,
              { s with
                unprocessed := s.unprocessed ++ [(path_id, raw_target_id)],
                deferred_imports :=
                  s.deferred_imports ++ [(pid, name, raw_target_id)],
                item_ids := (raw_item_id, none) :: s.item_ids })
      | ItemEnum.Trait items =>
        Res.ok (none,
          { s with
            unprocessed := s.unprocessed ++ items.map (fun i => (path_id, i)),
            item_ids := (raw_item_id, none) :: s.item_ids })
      | ItemEnum.Impl items =>
        Res.ok (none,
          { s with
            unprocessed := s.unprocessed ++ items.map (fun i => (path_id, i)),
            item_ids := (raw_item_id, none) :: s.item_ids })
      | ItemEnum.Enum variants =>
        Res.ok (none,
          { s with
            unprocessed := s.unprocessed ++ variants.map (fun i => (path_id, i)),
            item_ids := (raw_item_id, none) :: s.item_ids })
      | ItemEnum.OtherLeaf =>
        match s.api.root_id with
        | none => Res.panicked ("Module should be root")
        | some _ =>
          let item1 :=
            { Item.new with
              crate_id := crate_id, name := raw_item.name, span := raw_item.span }
          let item_id := s.api.items.length
          let items1 := s.api.items ++ [item1]
          match path_id with
          | none =>
            Res.ok (some item_id,
              { s with
                api := { s.api with items := items1 },
                item_ids := (raw_item_id, some item_id) :: s.item_ids })
          | some pid =>
            match listModifyO s.api.paths pid (fun p => { p with item_id := some item_id }) with
            | none => Res.panicked ("path_id to always be valid")
            | some paths' =>
              Res.ok (some item_id,
                { s with
                  api := { s.api with items := items1, paths := paths' },
                  item_ids := (raw_item_id, some item_id) :: s.item_ids })

/-- One iteration of the work loop in `RustDocParser::parse`: look the popped
id up in the index, resolve its crate, resolve its path (falling back to the
parent's path handle), then resolve the item. -/
def parseStep (raw : RawCrate) (parent_path_id : Option PathId)
    (raw_item_id : RawId) (s : ParserState) : Res ParserState :=
  match assocLookup raw_item_id raw.index with
  | none => Res.panicked ("all item ids are in `index`")
  | some raw_item =>
    match _parse_crate raw raw_item.crate_id s with
    | Res.panicked m => Res.panicked m
    | Res.fuelOut => Res.fuelOut
    | Res.ok (crate_id, s1) =>
      match _parse_path raw parent_path_id raw_item_id crate_id s1 with
      | Res.panicked m => Res.panicked m
      | Res.fuelOut => Res.fuelOut
      | Res.ok (pid, s2) =>
        match _parse_item raw raw_item_id (Option.or pid parent_path_id) crate_id s2 with
        | Res.panicked m => Res.panicked m
        | Res.fuelOut => Res.fuelOut
        | Res.ok (_, s3) => Res.ok s3

/-- The `while let` work loop of `RustDocParser::parse`, with explicit fuel. -/
def parseLoop (raw : RawCrate) : Nat → ParserState → Res ParserState
  | 0, s =>
    match s.unprocessed with
    | [] => Res.ok s
    | _ :: _ => Res.fuelOut
  | fuel + 1, s =>
    match s.unprocessed with
    | [] => Res.ok s
    | (parent, i) :: rest =>
      match parseStep raw parent i { s with unprocessed := rest } with
      | Res.ok s' => parseLoop raw fuel s'
      | Res.panicked m => Res.panicked m
      | Res.fuelOut => Res.fuelOut

/-- One deferred-import task of the second pass in `RustDocParser::parse`:
look up the target's path handle (double `unwrap`), clone the target path,
build the brand-new import alias path, push it, and append it as a child of
the parent. -/
def deferredImportStep (path_ids : List (RawId × Option PathId)) (api : Api)
    (task : PathId × String × RawId) : Res Api :=
  match task with
  | (parent_path_id, name, raw_target_id) =>
    match assocLookup raw_target_id path_ids with
    | none => Res.panicked ("deferred import target was never resolved")
    | some none => Res.panicked ("deferred import target has no path")
    | some (some target_path_id) =>
      match api.paths[target_path_id]? with
      | none => Res.panicked ("path_id to always be valid")
      | some target_path =>
        match api.paths[parent_path_id]? with
        | none => Res.panicked ("all ids are valid")
        | some parent_path =>
          let path1 :=
            { Path.new PathKind.Import (parent_path.path ++ ("::") ++ name) with
              crate_id := parent_path.crate_id,
              item_id := target_path.item_id,
              children := target_path.children }
          let new_id := api.paths.length
          match listModifyO (api.paths ++ [path1]) parent_path_id
              (fun p => { p with children := p.children ++ [new_id] }) with
          | none => Res.panicked ("parent_path_id to always be valid")
          | some paths' => Res.ok { api with paths := paths' }

/-- The deferred second pass of `RustDocParser::parse`: drain the recorded
tasks in order. -/
def runDeferred (path_ids : List (RawId × Option PathId)) :
    Api → List (PathId × String × RawId) → Res Api
  | api, [] => Res.ok api
  | api, t :: ts =>
    match deferredImportStep path_ids api t with
    | Res.ok api' => runDeferred path_ids api' ts
    | Res.panicked m => Res.panicked m
    | Res.fuelOut => Res.fuelOut

/-- Outcome of a whole `parse_raw` call: a graph, the single recoverable
error category (`crate::ErrorKind::ApiParse`), a panic, or fuel exhaustion
of the modelled unbounded loop. -/
inductive ParseResult where
  | ok : Api → ParseResult
  | apiParseErr : String → ParseResult
  | panicked : String → ParseResult
  | outOfFuel : ParseResult
deriving DecidableEq, Repr

/-- The parser state at the top of `RustDocParser::parse`'s loop: default
state with the root id enqueued under no parent. -/
def initState (raw : RawCrate) : ParserState :=
  { unprocessed := [(none, raw.root)],
    deferred_imports := [],
    api := Api.empty,
    crate_ids := [],
    path_ids := [],
    item_ids := [] }

/-- `RustDocParser::parse`: deserialize (failure is the recoverable
`ApiParse` error, tagged with the manifest path and the cause), run the work
loop from the seeded queue, then run the deferred-import pass.
Deserialization of the JSON text is external input handled by `serde`; it is
abstracted as the `deser` argument. -/
def RustDocParser.parse (deser : String → Except String RawCrate) (fuel : Nat)
    (raw : String) (manifest_path : String) : ParseResult :=
  match deser raw with
  | Except.error e =>
    ParseResult.apiParseErr
      ("Failed when parsing json for " ++ manifest_path ++ (": ") ++ e)
  | Except.ok rawCrate =>
    match parseLoop rawCrate fuel (initState rawCrate) with
    | Res.fuelOut => ParseResult.outOfFuel
    | Res.panicked m => ParseResult.panicked m
    | Res.ok s =>
      match runDeferred s.path_ids s.api s.deferred_imports with
      | Res.fuelOut => ParseResult.outOfFuel
      | Res.panicked m => ParseResult.panicked m
      | Res.ok api => ParseResult.ok api

/-- `parse_raw`: the public entry point, delegating to `RustDocParser::parse`. -/
def parse_raw (deser : String → Except String RawCrate) (fuel : Nat)
    (raw : String) (manifest_path : String) : ParseResult :=
  RustDocParser.parse deser fuel raw manifest_path

/-! ### Basic lemmas about the association-list and arena helpers -/

theorem assocLookup_cons_self {α : Type} (k : Nat) (v : α) (l : List (Nat × α)) :
    assocLookup k ((k, v) :: l) = some v := by
  simp [assocLookup]

theorem assocLookup_cons_ne {α : Type} {k k' : Nat} (v : α) (l : List (Nat × α))
    (h : k ≠ k') : assocLookup k ((k', v) :: l) = assocLookup k l := by
  simp [assocLookup, h]

theorem assocLookup_mem {α : Type} {k : Nat} {v : α} {l : List (Nat × α)}
    (h : assocLookup k l = some v) : (k, v) ∈ l := by
  induction l with
  | nil => simp [assocLookup] at h
  | cons e rest ih =>
    match e with
    | (k', v') =>
      by_cases hk : k = k'
      · subst hk
        rw [assocLookup_cons_self] at h
        cases h
        exact List.mem_cons_self _ _
      · rw [assocLookup_cons_ne _ _ hk] at h
        exact List.mem_cons_of_mem _ (ih h)

/-- Prepending a key that is absent preserves all successful lookups. -/
theorem assocLookup_cons_of_none {α : Type} {k0 : Nat} (v0 : α)
    {l : List (Nat × α)} (h0 : assocLookup k0 l = none) :
    ∀ k v, assocLookup k l = some v → assocLookup k ((k0, v0) :: l) = some v := by
  intro k v h
  by_cases hk : k = k0
  · subst hk; rw [h0] at h; cases h
  · rw [assocLookup_cons_ne _ _ hk]; exact h

theorem listModifyO_eq_some {α : Type} {l : List α} {i : Nat} {f : α → α}
    {l' : List α} (h : listModifyO l i f = some l') :
    ∃ a, l[i]? = some a ∧ l' = l.set i (f a) := by
  unfold listModifyO at h
  split at h
  · cases h
  · next a ha => exact ⟨a, ha, by cases h; rfl⟩

theorem listModifyO_length {α : Type} {l : List α} {i : Nat} {f : α → α}
    {l' : List α} (h : listModifyO l i f = some l') : l'.length = l.length := by
  obtain ⟨a, _, rfl⟩ := listModifyO_eq_some h
  exact List.length_set _ _ _

theorem listModifyO_get_ne {α : Type} {l : List α} {i : Nat} {f : α → α}
    {l' : List α} (h : listModifyO l i f = some l') {j : Nat} (hj : i ≠ j) :
    l'[j]? = l[j]? := by
  obtain ⟨a, _, rfl⟩ := listModifyO_eq_some h
  exact List.getElem?_set_ne hj

theorem listModifyO_get_self {α : Type} {l : List α} {i : Nat} {f : α → α}
    {l' : List α} {a : α} (h : listModifyO l i f = some l') (ha : l[i]? = some a) :
    l'[i]? = some (f a) := by
  obtain ⟨a', ha', rfl⟩ := listModifyO_eq_some h
  rw [ha] at ha'
  cases ha'
  rw [List.getElem?_set_self']
  simp [ha]

/-! ### Extension relations: what one engine step may do to the state

`Path.Extends p p'` says `p'` is `p` with possibly more children appended and
possibly an (re)assigned item handle — everything else equal.  `Api.Extends`
says the arenas only grew, old crate/item entries are untouched, old path
entries only extend, and a set root stays set.  These relations package the
frame/append-only discipline of the engine. -/

def Path.Extends (p p' : Path) : Prop :=
  p'.kind = p.kind ∧ p'.path = p.path ∧ p'.crate_id = p.crate_id ∧
  p'.span = p.span ∧ (∃ ext, p'.children = p.children ++ ext) ∧
  (p'.item_id = p.item_id ∨ ∃ v, p'.item_id = some v)

theorem pathExtends_refl (p : Path) : Path.Extends p p :=
  ⟨rfl, rfl, rfl, rfl, ⟨[], by simp⟩, Or.inl rfl⟩

theorem pathExtends_trans {p q r : Path} (h1 : Path.Extends p q)
    (h2 : Path.Extends q r) : Path.Extends p r := by
  obtain ⟨k1, n1, c1, s1, ⟨e1, he1⟩, i1⟩ := h1
  obtain ⟨k2, n2, c2, s2, ⟨e2, he2⟩, i2⟩ := h2
  refine ⟨k2.trans k1, n2.trans n1, c2.trans c1, s2.trans s1,
    ⟨e1 ++ e2, by rw [he2, he1, List.append_assoc]⟩, ?_⟩
  rcases i2 with i2 | ⟨v, hv⟩
  · rw [i2]; exact i1
  · exact Or.inr ⟨v, hv⟩

def Api.Extends (api api' : Api) : Prop :=
  (∃ ext, api'.crates = api.crates ++ ext) ∧
  (∃ ext, api'.items = api.items ++ ext) ∧
  api.paths.length ≤ api'.paths.length ∧
  (∀ (j : Nat) (p : Path), api.paths[j]? = some p →
    ∃ p', api'.paths[j]? = some p' ∧ Path.Extends p p') ∧
  (∀ r, api.root_id = some r → api'.root_id = some r)

theorem apiExtends_refl (api : Api) : Api.Extends api api :=
  ⟨⟨[], by simp⟩, ⟨[], by simp⟩, Nat.le.refl,
   fun _ p hp => ⟨p, hp, pathExtends_refl p⟩, fun _ hr => hr⟩

theorem apiExtends_trans {a b c : Api} (h1 : Api.Extends a b)
    (h2 : Api.Extends b c) : Api.Extends a c := by
  obtain ⟨⟨c1, hc1⟩, ⟨i1, hi1⟩, l1, p1, r1⟩ := h1
  obtain ⟨⟨c2, hc2⟩, ⟨i2, hi2⟩, l2, p2, r2⟩ := h2
  refine ⟨⟨c1 ++ c2, by rw [hc2, hc1, List.append_assoc]⟩,
    ⟨i1 ++ i2, by rw [hi2, hi1, List.append_assoc]⟩, l1.trans l2, ?_, fun r hr => r2 r (r1 r hr)⟩
  intro j p hp
  obtain ⟨q, hq, hpq⟩ := p1 j p hp
  obtain ⟨q', hq', hqq'⟩ := p2 j q hq
  exact ⟨q', hq', pathExtends_trans hpq hqq'⟩

def MemoExtends {α : Type} (m m' : List (Nat × α)) : Prop :=
  ∀ k v, assocLookup k m = some v → assocLookup k m' = some v

theorem memoExtends_refl {α : Type} (m : List (Nat × α)) : MemoExtends m m :=
  fun _ _ h => h

theorem memoExtends_trans {α : Type} {a b c : List (Nat × α)}
    (h1 : MemoExtends a b) (h2 : MemoExtends b c) : MemoExtends a c :=
  fun k v h => h2 k v (h1 k v h)

/-- The per-step state-evolution discipline: graph and memo tables only grow,
and the deferred-task list is append-only.  (The work queue is excluded: it
both grows and shrinks.) -/
def StateExtends (s s' : ParserState) : Prop :=
  Api.Extends s.api s'.api ∧
  MemoExtends s.crate_ids s'.crate_ids ∧
  MemoExtends s.path_ids s'.path_ids ∧
  MemoExtends s.item_ids s'.item_ids ∧
  (∃ ext, s'.deferred_imports = s.deferred_imports ++ ext)

theorem stateExtends_refl (s : ParserState) : StateExtends s s :=
  ⟨apiExtends_refl _, memoExtends_refl _, memoExtends_refl _, memoExtends_refl _,
   ⟨[], by simp⟩⟩

theorem stateExtends_trans {a b c : ParserState} (h1 : StateExtends a b)
    (h2 : StateExtends b c) : StateExtends a c := by
  obtain ⟨a1, c1, p1, i1, ⟨d1, hd1⟩⟩ := h1
  obtain ⟨a2, c2, p2, i2, ⟨d2, hd2⟩⟩ := h2
  exact ⟨apiExtends_trans a1 a2, memoExtends_trans c1 c2, memoExtends_trans p1 p2, memoExtends_trans i1 i2,
    ⟨d1 ++ d2, by rw [hd2, hd1, List.append_assoc]⟩⟩

/-- A state with only the work queue changed extends the original. -/
theorem StateExtends.queue (s : ParserState) (q : List (Option PathId × RawId)) :
    StateExtends s { s with unprocessed := q } :=
  ⟨apiExtends_refl _, memoExtends_refl _, memoExtends_refl _, memoExtends_refl _,
   ⟨[], by simp⟩⟩

/-! ### Frame lemmas for the three resolution functions -/

/-- `_parse_crate` only touches the crates arena and the crate memo table. -/
theorem _parse_crate_frame {raw : RawCrate} {n : Nat} {s : ParserState}
    {c : Option CrateId} {s' : ParserState}
    (h : _parse_crate raw n s = Res.ok (c, s')) :
    s'.api.paths = s.api.paths ∧ s'.api.items = s.api.items ∧
    s'.api.root_id = s.api.root_id ∧ s'.path_ids = s.path_ids ∧
    s'.item_ids = s.item_ids ∧ s'.unprocessed = s.unprocessed ∧
    s'.deferred_imports = s.deferred_imports := by
  unfold _parse_crate at h
  split at h
  · cases h; exact ⟨rfl, rfl, rfl, rfl, rfl, rfl, rfl⟩
  · split at h
    · split at h
      · cases h
      · cases h; exact ⟨rfl, rfl, rfl, rfl, rfl, rfl, rfl⟩
    · cases h; exact ⟨rfl, rfl, rfl, rfl, rfl, rfl, rfl⟩

/-- `_parse_crate` respects the state-evolution discipline. -/
theorem _parse_crate_extends {raw : RawCrate} {n : Nat} {s : ParserState}
    {c : Option CrateId} {s' : ParserState}
    (h : _parse_crate raw n s = Res.ok (c, s')) : StateExtends s s' := by
  unfold _parse_crate at h
  split at h
  · cases h; exact stateExtends_refl _
  · next hmiss =>
    split at h
    · split at h
      · cases h
      · cases h
        refine ⟨⟨⟨[Crate.new _], rfl⟩, ⟨[], by simp⟩, Nat.le.refl,
          fun j p hp => ⟨p, hp, pathExtends_refl p⟩, fun r hr => hr⟩,
          ?_, memoExtends_refl _, memoExtends_refl _, ⟨[], by simp⟩⟩
        exact assocLookup_cons_of_none _ hmiss
    · cases h
      exact ⟨apiExtends_refl _, assocLookup_cons_of_none _ hmiss,
        memoExtends_refl _, memoExtends_refl _, ⟨[], by simp⟩⟩

/-- If an index query of a list succeeds it still succeeds after appending. -/
theorem getElem?_append_left' {α : Type} {l l' : List α} {j : Nat} {a : α}
    (h : l[j]? = some a) : (l ++ l')[j]? = some a := by
  have hj : j < l.length := by
    by_contra hge
    rw [List.getElem?_eq_none (Nat.le_of_not_lt hge)] at h
    cases h
  rw [List.getElem?_append_left hj]
  exact h

/-- `_parse_path` only touches the paths arena, the root handle, and the path
memo table. -/
theorem _parse_path_frame {raw : RawCrate} {pp : Option PathId} {i : RawId}
    {cid : Option CrateId} {s : ParserState} {p : Option PathId} {s' : ParserState}
    (h : _parse_path raw pp i cid s = Res.ok (p, s')) :
    s'.api.crates = s.api.crates ∧ s'.api.items = s.api.items ∧
    s'.crate_ids = s.crate_ids ∧ s'.item_ids = s.item_ids ∧
    s'.unprocessed = s.unprocessed ∧ s'.deferred_imports = s.deferred_imports := by
  unfold _parse_path at h
  split at h
  · cases h; exact ⟨rfl, rfl, rfl, rfl, rfl, rfl⟩
  · split at h
    · cases h; exact ⟨rfl, rfl, rfl, rfl, rfl, rfl⟩
    · split at h
      · cases h
      · split at h
        · cases h
        · cases h
        · split at h
          · -- no parent: the fresh path is only appended
            cases h; exact ⟨rfl, rfl, rfl, rfl, rfl, rfl⟩
          · -- a parent: additionally its child list is updated
            dsimp only at h
            split at h
            · cases h
            · cases h; exact ⟨rfl, rfl, rfl, rfl, rfl, rfl⟩

/-- `_parse_path` respects the state-evolution discipline. -/
theorem _parse_path_extends {raw : RawCrate} {pp : Option PathId} {i : RawId}
    {cid : Option CrateId} {s : ParserState} {p : Option PathId} {s' : ParserState}
    (h : _parse_path raw pp i cid s = Res.ok (p, s')) : StateExtends s s' := by
  unfold _parse_path at h
  split at h
  · cases h; exact stateExtends_refl _
  · next hmiss =>
    split at h
    · cases h
      exact ⟨apiExtends_refl _, memoExtends_refl _,
        assocLookup_cons_of_none _ hmiss, memoExtends_refl _, ⟨[], by simp⟩⟩
    · split at h
      · cases h
      · split at h
        · cases h
        · cases h
        · split at h
          · -- no parent: just a push of the fresh path
            cases h
            refine ⟨⟨⟨[], by simp⟩, ⟨[], by simp⟩, by simp, ?_, ?_⟩,
              memoExtends_refl _, assocLookup_cons_of_none _ hmiss,
              memoExtends_refl _, ⟨[], by simp⟩⟩
            · intro j p hp
              exact ⟨p, getElem?_append_left' hp, pathExtends_refl p⟩
            · intro r hr
              simp [hr]
          · -- a parent: push, then append the fresh handle to its children
            dsimp only at h
            split at h
            · cases h
            · rename_i ppid _ paths2 hmod
              cases h
              refine ⟨⟨⟨[], by simp⟩, ⟨[], by simp⟩, ?_, ?_, ?_⟩,
                memoExtends_refl _, assocLookup_cons_of_none _ hmiss,
                memoExtends_refl _, ⟨[], by simp⟩⟩
              · rw [listModifyO_length hmod]
                simp
              · intro j p hp
                by_cases hpj : ppid = j
                · subst hpj
                  exact ⟨_, listModifyO_get_self hmod (getElem?_append_left' hp),
                    rfl, rfl, rfl, rfl, ⟨[s.api.paths.length], rfl⟩, Or.inl rfl⟩
                · refine ⟨p, ?_, pathExtends_refl p⟩
                  show paths2[j]? = some p
                  rw [listModifyO_get_ne hmod hpj]
                  exact getElem?_append_left' hp
              · intro r hr
                simp [hr]

/-- `_parse_item` only touches the items arena, item handles on paths, the
item memo table, the work queue and the deferred-task list. -/
theorem _parse_item_frame {raw : RawCrate} {i : RawId} {pid : Option PathId}
    {cid : Option CrateId} {s : ParserState} {it : Option ItemId} {s' : ParserState}
    (h : _parse_item raw i pid cid s = Res.ok (it, s')) :
    s'.api.crates = s.api.crates ∧ s'.api.root_id = s.api.root_id ∧
    s'.crate_ids = s.crate_ids ∧ s'.path_ids = s.path_ids ∧
    (∀ (j : Nat) (p : Path), s.api.paths[j]? = some p →
      ∃ p', s'.api.paths[j]? = some p' ∧ p'.kind = p.kind ∧ p'.path = p.path ∧
        p'.crate_id = p.crate_id ∧ p'.span = p.span ∧ p'.children = p.children ∧
        (p'.item_id = p.item_id ∨ ∃ v, p'.item_id = some v)) ∧
    s'.api.paths.length = s.api.paths.length := by
  unfold _parse_item at h
  have keep : ∀ (j : Nat) (p : Path), s.api.paths[j]? = some p →
      ∃ p', s.api.paths[j]? = some p' ∧ p'.kind = p.kind ∧ p'.path = p.path ∧
        p'.crate_id = p.crate_id ∧ p'.span = p.span ∧ p'.children = p.children ∧
        (p'.item_id = p.item_id ∨ ∃ v, p'.item_id = some v) :=
    fun j p hp => ⟨p, hp, rfl, rfl, rfl, rfl, rfl, Or.inl rfl⟩
  split at h
  · cases h; exact ⟨rfl, rfl, rfl, rfl, keep, rfl⟩
  · split at h
    · cases h
    · split at h
      · cases h; exact ⟨rfl, rfl, rfl, rfl, keep, rfl⟩
      · split at h
        · cases h
        · split at h
          · cases h
          · cases h; exact ⟨rfl, rfl, rfl, rfl, keep, rfl⟩
      · cases h; exact ⟨rfl, rfl, rfl, rfl, keep, rfl⟩
      · cases h; exact ⟨rfl, rfl, rfl, rfl, keep, rfl⟩
      · cases h; exact ⟨rfl, rfl, rfl, rfl, keep, rfl⟩
      · split at h
        · cases h
        · dsimp only at h
          split at h
          · cases h; exact ⟨rfl, rfl, rfl, rfl, keep, rfl⟩
          · split at h
            · cases h
            · rename_i pid' hscrut paths' hmod
              cases h
              refine ⟨rfl, rfl, rfl, rfl, ?_, listModifyO_length hmod⟩
              intro j p hp
              by_cases hpj : pid' = j
              · subst hpj
                exact ⟨_, listModifyO_get_self hmod hp, rfl, rfl, rfl, rfl, rfl,
                  Or.inr ⟨_, rfl⟩⟩
              · refine ⟨p, ?_, rfl, rfl, rfl, rfl, rfl, Or.inl rfl⟩
                show paths'[j]? = some p
                rw [listModifyO_get_ne hmod hpj]
                exact hp

/-- `_parse_item` respects the state-evolution discipline. -/
theorem _parse_item_extends {raw : RawCrate} {i : RawId} {pid : Option PathId}
    {cid : Option CrateId} {s : ParserState} {it : Option ItemId} {s' : ParserState}
    (h : _parse_item raw i pid cid s = Res.ok (it, s')) : StateExtends s s' := by
  unfold _parse_item at h
  split at h
  · cases h; exact stateExtends_refl _
  · next hmiss =>
    split at h
    · cases h
    · split at h
      · cases h
        exact ⟨apiExtends_refl _, memoExtends_refl _, memoExtends_refl _,
          assocLookup_cons_of_none _ hmiss, ⟨[], by simp⟩⟩
      · split at h
        · cases h
        · split at h
          · cases h
          · cases h
            exact ⟨apiExtends_refl _, memoExtends_refl _, memoExtends_refl _,
              assocLookup_cons_of_none _ hmiss, ⟨[_], rfl⟩⟩
      · cases h
        exact ⟨apiExtends_refl _, memoExtends_refl _, memoExtends_refl _,
          assocLookup_cons_of_none _ hmiss, ⟨[], by simp⟩⟩
      · cases h
        exact ⟨apiExtends_refl _, memoExtends_refl _, memoExtends_refl _,
          assocLookup_cons_of_none _ hmiss, ⟨[], by simp⟩⟩
      · cases h
        exact ⟨apiExtends_refl _, memoExtends_refl _, memoExtends_refl _,
          assocLookup_cons_of_none _ hmiss, ⟨[], by simp⟩⟩
      · split at h
        · cases h
        · dsimp only at h
          split at h
          · cases h
            refine ⟨⟨⟨[], by simp⟩, ⟨[_], rfl⟩, Nat.le.refl,
              fun j p hp => ⟨p, hp, pathExtends_refl p⟩, fun r hr => hr⟩,
              memoExtends_refl _, memoExtends_refl _,
              assocLookup_cons_of_none _ hmiss, ⟨[], by simp⟩⟩
          · split at h
            · cases h
            · rename_i pid' hscrut paths' hmod
              cases h
              refine ⟨⟨⟨[], by simp⟩, ⟨[_], rfl⟩, Nat.le_of_eq (listModifyO_length hmod).symm,
                ?_, fun r hr => hr⟩,
                memoExtends_refl _, memoExtends_refl _,
                assocLookup_cons_of_none _ hmiss, ⟨[], by simp⟩⟩
              intro j p hp
              by_cases hpj : pid' = j
              · subst hpj
                exact ⟨_, listModifyO_get_self hmod hp,
                  rfl, rfl, rfl, rfl, ⟨[], by simp⟩, Or.inr ⟨_, rfl⟩⟩
              · refine ⟨p, ?_, pathExtends_refl p⟩
                show paths'[j]? = some p
                rw [listModifyO_get_ne hmod hpj]
                exact hp

/-- One work-loop iteration respects the state-evolution discipline. -/
theorem parseStep_extends {raw : RawCrate} {pp : Option PathId} {i : RawId}
    {s s' : ParserState} (h : parseStep raw pp i s = Res.ok s') :
    StateExtends s s' := by
  unfold parseStep at h
  split at h
  · cases h
  · split at h
    · cases h
    · cases h
    · rename_i cid s1 hc
      split at h
      · cases h
      · cases h
      · rename_i pid s2 hp
        split at h
        · cases h
        · cases h
        · rename_i it s3 hi
          cases h
          exact stateExtends_trans (stateExtends_trans (_parse_crate_extends hc)
            (_parse_path_extends hp)) (_parse_item_extends hi)

/-- The whole work loop respects the state-evolution discipline. -/
theorem parseLoop_extends {raw : RawCrate} :
    ∀ {fuel : Nat} {s s' : ParserState},
      parseLoop raw fuel s = Res.ok s' → StateExtends s s' := by
  intro fuel
  induction fuel with
  | zero =>
    intro s s' h
    unfold parseLoop at h
    split at h
    · cases h; exact stateExtends_refl _
    · cases h
  | succ fuel ih =>
    intro s s' h
    unfold parseLoop at h
    split at h
    · cases h; exact stateExtends_refl _
    · rename_i parent i rest hq
      split at h
      · rename_i s1 hstep
        exact stateExtends_trans (stateExtends_trans (StateExtends.queue s rest) (parseStep_extends hstep)) (ih h)
      · cases h
      · cases h

/-- One deferred-import task leaves root, crates and items untouched. -/
theorem deferredImportStep_frame {pids : List (RawId × Option PathId)} {api : Api}
    {t : PathId × String × RawId} {api' : Api}
    (h : deferredImportStep pids api t = Res.ok api') :
    api'.root_id = api.root_id ∧ api'.crates = api.crates ∧ api'.items = api.items := by
  obtain ⟨m, n, T⟩ := t
  unfold deferredImportStep at h
  dsimp only at h
  split at h
  · cases h
  · cases h
  · split at h
    · cases h
    · split at h
      · cases h
      · split at h
        · cases h
        · cases h; exact ⟨rfl, rfl, rfl⟩

/-- One deferred-import task respects the graph-evolution discipline. -/
theorem deferredImportStep_extends {pids : List (RawId × Option PathId)} {api : Api}
    {t : PathId × String × RawId} {api' : Api}
    (h : deferredImportStep pids api t = Res.ok api') : Api.Extends api api' := by
  obtain ⟨m, n, T⟩ := t
  unfold deferredImportStep at h
  dsimp only at h
  split at h
  · cases h
  · cases h
  · split at h
    · cases h
    · split at h
      · cases h
      · split at h
        · cases h
        · rename_i paths' hmod
          cases h
          refine ⟨⟨[], by simp⟩, ⟨[], by simp⟩, ?_, ?_, fun r hr => hr⟩
          · rw [listModifyO_length hmod]
            simp
          · intro j p hp
            by_cases hmj : m = j
            · subst hmj
              exact ⟨_, listModifyO_get_self hmod (getElem?_append_left' hp),
                rfl, rfl, rfl, rfl, ⟨[api.paths.length], rfl⟩, Or.inl rfl⟩
            · refine ⟨p, ?_, pathExtends_refl p⟩
              show paths'[j]? = some p
              rw [listModifyO_get_ne hmod hmj]
              exact getElem?_append_left' hp

/-- The whole deferred pass respects the graph-evolution discipline. -/
theorem runDeferred_extends {pids : List (RawId × Option PathId)} :
    ∀ {ts : List (PathId × String × RawId)} {api api' : Api},
      runDeferred pids api ts = Res.ok api' → Api.Extends api api' := by
  intro ts
  induction ts with
  | nil =>
    intro api api' h
    unfold runDeferred at h
    cases h
    exact apiExtends_refl _
  | cons t ts ih =>
    intro api api' h
    unfold runDeferred at h
    split at h
    · rename_i api1 hstep
      exact apiExtends_trans (deferredImportStep_extends hstep) (ih h)
    · cases h
    · cases h

/-- The whole deferred pass leaves root, crates and items untouched. -/
theorem runDeferred_frame {pids : List (RawId × Option PathId)} :
    ∀ {ts : List (PathId × String × RawId)} {api api' : Api},
      runDeferred pids api ts = Res.ok api' →
      api'.root_id = api.root_id ∧ api'.crates = api.crates ∧ api'.items = api.items := by
  intro ts
  induction ts with
  | nil =>
    intro api api' h
    unfold runDeferred at h
    cases h
    exact ⟨rfl, rfl, rfl⟩
  | cons t ts ih =>
    intro api api' h
    unfold runDeferred at h
    split at h
    · rename_i api1 hstep
      obtain ⟨r1, c1, i1⟩ := deferredImportStep_frame hstep
      obtain ⟨r2, c2, i2⟩ := ih h
      exact ⟨r2.trans r1, c2.trans c1, i2.trans i1⟩
    · cases h
    · cases h

/-! ### Concrete raw documents used to instantiate and refute claims -/

/-- Extract the graph of a successful parse, with a fallback default. -/
def ParseResult.getOkD : ParseResult → Api → Api
  | ParseResult.ok api, _ => api
  | _, d => d

/-- Scenario A of the spec: root module `lib` containing one function
`lib::f`, both with path-table entries. -/
def docA : RawCrate :=
  { root := 0,
    index :=
      [(0, { crate_id := 0, name := some "lib", span := none, inner := ItemEnum.Module [1] }),
       (1, { crate_id := 0, name := some "f", span := none, inner := ItemEnum.OtherLeaf })],
    paths :=
      [(0, { crate_id := 0, path := ["lib"], kind := ItemKind.Module }),
       (1, { crate_id := 0, path := ["lib", "f"], kind := ItemKind.Function })],
    external_crates := [] }

/-- Scenario B of the spec: root module `lib` re-exporting (as `g`) the
function `dep::g` of external crate number 7; the import descriptor itself
has no path-table entry. -/
def docB : RawCrate :=
  { root := 0,
    index :=
      [(0, { crate_id := 0, name := some "lib", span := none, inner := ItemEnum.Module [1] }),
       (1, { crate_id := 0, name := none, span := none, inner := ItemEnum.Import "g" (some 2) }),
       (2, { crate_id := 7, name := some "g", span := none, inner := ItemEnum.OtherLeaf })],
    paths :=
      [(0, { crate_id := 0, path := ["lib"], kind := ItemKind.Module }),
       (2, { crate_id := 7, path := ["dep", "g"], kind := ItemKind.Function })],
    external_crates := [(7, { name := "dep" })] }

/-- Like scenario B, except that the import descriptor (id 1) also has a
path-table entry (`lib::reexp`, kind import). -/
def docImportWithPath : RawCrate :=
  { root := 0,
    index :=
      [(0, { crate_id := 0, name := some "lib", span := none, inner := ItemEnum.Module [1] }),
       (1, { crate_id := 0, name := none, span := none, inner := ItemEnum.Import "g" (some 2) }),
       (2, { crate_id := 0, name := some "g", span := none, inner := ItemEnum.OtherLeaf })],
    paths :=
      [(0, { crate_id := 0, path := ["lib"], kind := ItemKind.Module }),
       (1, { crate_id := 0, path := ["lib", "reexp"], kind := ItemKind.Import }),
       (2, { crate_id := 0, path := ["dep", "g"], kind := ItemKind.Function })],
    external_crates := [] }

/-- A document whose root id has a path-table entry of kind function (the
index still calls it a module). -/
def docRootKindFn : RawCrate :=
  { root := 0,
    index :=
      [(0, { crate_id := 0, name := some "lib", span := none, inner := ItemEnum.Module [] })],
    paths := [(0, { crate_id := 0, path := ["lib"], kind := ItemKind.Function })],
    external_crates := [] }

/-- Root module `lib` with one leaf child that has no path-table entry. -/
def docLeafNoPath : RawCrate :=
  { root := 0,
    index :=
      [(0, { crate_id := 0, name := some "lib", span := none, inner := ItemEnum.Module [1] }),
       (1, { crate_id := 0, name := some "f", span := none, inner := ItemEnum.OtherLeaf })],
    paths := [(0, { crate_id := 0, path := ["lib"], kind := ItemKind.Module })],
    external_crates := [] }

/-- Root module `lib` with two leaf children, both without path-table
entries: both resolve to the root's path handle. -/
def docTwoLeaves : RawCrate :=
  { root := 0,
    index :=
      [(0, { crate_id := 0, name := some "lib", span := none, inner := ItemEnum.Module [1, 2] }),
       (1, { crate_id := 0, name := some "a", span := none, inner := ItemEnum.OtherLeaf }),
       (2, { crate_id := 0, name := some "b", span := none, inner := ItemEnum.OtherLeaf })],
    paths := [(0, { crate_id := 0, path := ["lib"], kind := ItemKind.Module })],
    external_crates := [] }

/-- Root module `lib` containing a glob re-export: the import descriptor has
no target id. -/
def docGlob : RawCrate :=
  { root := 0,
    index :=
      [(0, { crate_id := 0, name := some "lib", span := none, inner := ItemEnum.Module [1] }),
       (1, { crate_id := 0, name := none, span := none, inner := ItemEnum.Import "g" none })],
    paths := [(0, { crate_id := 0, path := ["lib"], kind := ItemKind.Module })],
    external_crates := [] }

/-- A document whose root id is an import descriptor and has no path-table
entry, so the import is reached with no path handle at all. -/
def docImportNoParent : RawCrate :=
  { root := 0,
    index :=
      [(0, { crate_id := 0, name := none, span := none, inner := ItemEnum.Import "g" (some 1) }),
       (1, { crate_id := 0, name := some "g", span := none, inner := ItemEnum.OtherLeaf })],
    paths := [],
    external_crates := [] }

/-- Root module `lib` re-exporting a target that has no path-table entry, so
the deferred pass finds a negatively-memoized target. -/
def docDeferredNoPath : RawCrate :=
  { root := 0,
    index :=
      [(0, { crate_id := 0, name := some "lib", span := none, inner := ItemEnum.Module [1] }),
       (1, { crate_id := 0, name := none, span := none, inner := ItemEnum.Import "g" (some 2) }),
       (2, { crate_id := 0, name := some "g", span := none, inner := ItemEnum.OtherLeaf })],
    paths := [(0, { crate_id := 0, path := ["lib"], kind := ItemKind.Module })],
    external_crates := [] }

/-- A document whose root id is absent from the index. -/
def docMissingId : RawCrate :=
  { root := 5, index := [], paths := [], external_crates := [] }

/-- A document whose root is a path-less leaf: a leaf item is reached before
any root path is established. -/
def docLeafRoot : RawCrate :=
  { root := 0,
    index :=
      [(0, { crate_id := 0, name := some "f", span := none, inner := ItemEnum.OtherLeaf })],
    paths := [],
    external_crates := [] }

/-- A document presenting the struct-field kind in a path-table entry. -/
def docStructFieldKind : RawCrate :=
  { root := 0,
    index :=
      [(0, { crate_id := 0, name := some "x", span := none, inner := ItemEnum.OtherLeaf })],
    paths := [(0, { crate_id := 0, path := ["lib", "x"], kind := ItemKind.StructField })],
    external_crates := [] }

/-! ### C8: the path-kind classification table -/

/-- The raw item kind that `_convert_path_kind` classifies to a given path
kind (a proof device for surjectivity of the classification). -/
def pathKindSource : PathKind → ItemKind
  | PathKind.Module => ItemKind.Module
  | PathKind.ExternCrate => ItemKind.ExternCrate
  | PathKind.Import => ItemKind.Import
  | PathKind.Struct => ItemKind.Struct
  | PathKind.Union => ItemKind.Union
  | PathKind.Enum => ItemKind.Enum
  | PathKind.Variant => ItemKind.Variant
  | PathKind.Function => ItemKind.Function
  | PathKind.Typedef => ItemKind.Typedef
  | PathKind.OpaqueTy => ItemKind.OpaqueTy
  | PathKind.Constant => ItemKind.Constant
  | PathKind.Trait => ItemKind.Trait
  | PathKind.TraitAlias => ItemKind.TraitAlias
  | PathKind.Method => ItemKind.Method
  | PathKind.Impl => ItemKind.Impl
  | PathKind.Static => ItemKind.Static
  | PathKind.ForeignType => ItemKind.ForeignType
  | PathKind.MacroDecl => ItemKind.MacroDecl
  | PathKind.ProcAttribute => ItemKind.ProcAttribute
  | PathKind.ProcDerive => ItemKind.ProcDerive
  | PathKind.AssocConst => ItemKind.AssocConst
  | PathKind.AssocType => ItemKind.AssocType
  | PathKind.Primitive => ItemKind.Primitive
  | PathKind.Keyword => ItemKind.Keyword

/-- C8: `_convert_path_kind` is a total pure function from the raw item-kind
taxonomy onto the output path-kind enumeration, defined on every kind except
`StructField`; presenting `StructField` is an unconditional abort
(`unreachable!`), never a returned path kind. -/
theorem c8_path_kind_classification :
    (∀ k : ItemKind, k ≠ ItemKind.StructField →
      ∃ pk : PathKind, _convert_path_kind k = Res.ok pk) ∧
    (∀ pk : PathKind, _convert_path_kind (pathKindSource pk) = Res.ok pk) ∧
    _convert_path_kind ItemKind.StructField =
      Res.panicked ("These are handled by the Item") ∧
    (∀ (k : ItemKind) (pk : PathKind), _convert_path_kind k = Res.ok pk →
      k ≠ ItemKind.StructField) := by
  refine ⟨?_, ?_, rfl, ?_⟩
  · intro k hk
    cases k <;> first
      | exact ⟨_, rfl⟩
      | exact absurd rfl hk
  · intro pk
    cases pk <;> rfl
  · intro k pk h hk
    subst hk
    cases h

/-- Witness for C8 at a concrete kind. -/
theorem c8_path_kind_classification_witness :
    ∃ pk : PathKind, _convert_path_kind ItemKind.Function = Res.ok pk :=
  c8_path_kind_classification.1 ItemKind.Function (by decide)

/-! ### C9: the recoverable error category versus internal aborts -/

/-- C9: an input string that fails to deserialize yields the single
recoverable `ApiParse` error, whose message names the manifest path and the
underlying cause, and the whole operation stops at that first failure (the
result is the error, for any fuel).  The three internal-consistency faults —
an id missing from the index, a leaf item before the root path exists, the
struct-field kind presented as a path kind — are instead panics, a distinct
outcome from the recoverable error. -/
theorem c9_error_handling :
    (∀ (deser : String → Except String RawCrate) (fuel : Nat) (raw mp e : String),
      deser raw = Except.error e →
      parse_raw deser fuel raw mp =
        ParseResult.apiParseErr
          ("Failed when parsing json for " ++ mp ++ (": ") ++ e)) ∧
    parse_raw (fun _ => Except.ok docMissingId) 10 "" "Cargo.toml" =
      ParseResult.panicked ("all item ids are in `index`") ∧
    parse_raw (fun _ => Except.ok docLeafRoot) 10 "" "Cargo.toml" =
      ParseResult.panicked ("Module should be root") ∧
    parse_raw (fun _ => Except.ok docStructFieldKind) 10 "" "Cargo.toml" =
      ParseResult.panicked ("These are handled by the Item") ∧
    (∀ m e : String, ParseResult.panicked m ≠ ParseResult.apiParseErr e) := by
  refine ⟨?_, by rfl, by rfl, by rfl, ?_⟩
  · intro deser fuel raw mp e h
    unfold parse_raw RustDocParser.parse
    rw [h]
  · intro m e h
    cases h

/-- Witness for C9 at a concrete failing deserialization. -/
theorem c9_error_handling_witness :
    parse_raw (fun _ => Except.error "expected value at line 1") 10 "bad json" "a/Cargo.toml" =
      ParseResult.apiParseErr
        ("Failed when parsing json for " ++ "a/Cargo.toml" ++ (": ") ++
          "expected value at line 1") :=
  c9_error_handling.1 (fun _ => Except.error "expected value at line 1") 10
    "bad json" "a/Cargo.toml" "expected value at line 1" rfl

/-! ### C2: memoized, idempotent resolution -/

/-- C2: within one parse, each of crate, path and item resolution is
memoized including negative results: once a resolution of a raw crate number
or raw id has succeeded, resolving it again — even from a different parent
path or with a different crate handle — returns the identical handle (or
identical absence of one) and leaves the state exactly as it was, so the
underlying entity is created exactly once. -/
theorem c2_resolution_idempotent :
    (∀ (raw : RawCrate) (n : Nat) (s : ParserState) (c : Option CrateId)
        (s' : ParserState),
      _parse_crate raw n s = Res.ok (c, s') →
      _parse_crate raw n s' = Res.ok (c, s')) ∧
    (∀ (raw : RawCrate) (pp : Option PathId) (i : RawId) (cid : Option CrateId)
        (s : ParserState) (p : Option PathId) (s' : ParserState)
        (pp' : Option PathId) (cid' : Option CrateId),
      _parse_path raw pp i cid s = Res.ok (p, s') →
      _parse_path raw pp' i cid' s' = Res.ok (p, s')) ∧
    (∀ (raw : RawCrate) (i : RawId) (pid : Option PathId) (cid : Option CrateId)
        (s : ParserState) (it : Option ItemId) (s' : ParserState)
        (pid' : Option PathId) (cid' : Option CrateId),
      _parse_item raw i pid cid s = Res.ok (it, s') →
      _parse_item raw i pid' cid' s' = Res.ok (it, s')) := by
  refine ⟨?_, ?_, ?_⟩
  · intro raw n s c s' h
    unfold _parse_crate at h
    split at h
    · rename_i hmemo
      cases h
      unfold _parse_crate
      rw [hmemo]
    · split at h
      · split at h
        · cases h
        · cases h
          unfold _parse_crate
          rw [assocLookup_cons_self]
      · cases h
        unfold _parse_crate
        rw [assocLookup_cons_self]
  · intro raw pp i cid s p s' pp' cid' h
    unfold _parse_path at h
    split at h
    · rename_i hmemo
      cases h
      unfold _parse_path
      rw [hmemo]
    · split at h
      · cases h
        unfold _parse_path
        rw [assocLookup_cons_self]
      · split at h
        · cases h
        · split at h
          · cases h
          · cases h
          · split at h
            · cases h
              unfold _parse_path
              rw [assocLookup_cons_self]
            · dsimp only at h
              split at h
              · cases h
              · cases h
                unfold _parse_path
                rw [assocLookup_cons_self]
  · intro raw i pid cid s it s' pid' cid' h
    unfold _parse_item at h
    split at h
    · rename_i hmemo
      cases h
      unfold _parse_item
      rw [hmemo]
    · split at h
      · cases h
      · split at h
        · cases h
          unfold _parse_item
          rw [assocLookup_cons_self]
        · split at h
          · cases h
          · split at h
            · cases h
            · cases h
              unfold _parse_item
              rw [assocLookup_cons_self]
        · cases h
          unfold _parse_item
          rw [assocLookup_cons_self]
        · cases h
          unfold _parse_item
          rw [assocLookup_cons_self]
        · cases h
          unfold _parse_item
          rw [assocLookup_cons_self]
        · split at h
          · cases h
          · dsimp only at h
            split at h
            · cases h
              unfold _parse_item
              rw [assocLookup_cons_self]
            · split at h
              · cases h
              · cases h
                unfold _parse_item
                rw [assocLookup_cons_self]

/-- The crate/state pair produced by resolving crate number 7 of scenario B
from the initial state. -/
def c2w : Option CrateId × ParserState :=
  (_parse_crate docB 7 (initState docB)).getOkD (none, initState docB)

/-- Witness for C2: re-resolving crate number 7 of scenario B returns the
cached handle and the unchanged state. -/
theorem c2_resolution_idempotent_witness :
    _parse_crate docB 7 c2w.2 = Res.ok (c2w.1, c2w.2) :=
  c2_resolution_idempotent.1 docB 7 (initState docB) c2w.1 c2w.2 rfl

/-! ### C10: panic conditions not in the spec's internal-fault list -/

/-- C10: an import descriptor with no target id (a glob re-export), an import
descriptor reached with no path handle for its parent, and a deferred task whose
target resolved to no path handle (or was never resolved) each abort the
parse with a panic — a distinct outcome from the recoverable error — shown
both for the individual resolution functions and for whole concrete
documents. -/
theorem c10_unlisted_panic_conditions :
    (∀ (raw : RawCrate) (i : RawId) (pid : Option PathId) (cid : Option CrateId)
        (s : ParserState) (name : String) (item : RawItem),
      assocLookup i s.item_ids = none →
      assocLookup i raw.index = some item →
      item.inner = ItemEnum.Import name none →
      _parse_item raw i pid cid s = Res.panicked ("import target id is missing")) ∧
    (∀ (raw : RawCrate) (i : RawId) (cid : Option CrateId) (s : ParserState)
        (name : String) (T : RawId) (item : RawItem),
      assocLookup i s.item_ids = none →
      assocLookup i raw.index = some item →
      item.inner = ItemEnum.Import name (some T) →
      _parse_item raw i none cid s =
        Res.panicked ("import reached with no path handle")) ∧
    (∀ (pids : List (RawId × Option PathId)) (api : Api) (m : PathId)
        (n : String) (T : RawId),
      assocLookup T pids = some none →
      deferredImportStep pids api (m, n, T) =
        Res.panicked ("deferred import target has no path")) ∧
    (∀ (pids : List (RawId × Option PathId)) (api : Api) (m : PathId)
        (n : String) (T : RawId),
      assocLookup T pids = none →
      deferredImportStep pids api (m, n, T) =
        Res.panicked ("deferred import target was never resolved")) ∧
    parse_raw (fun _ => Except.ok docGlob) 10 "" "Cargo.toml" =
      ParseResult.panicked ("import target id is missing") ∧
    parse_raw (fun _ => Except.ok docImportNoParent) 10 "" "Cargo.toml" =
      ParseResult.panicked ("import reached with no path handle") ∧
    parse_raw (fun _ => Except.ok docDeferredNoPath) 10 "" "Cargo.toml" =
      ParseResult.panicked ("deferred import target has no path") ∧
    (∀ m e : String, ParseResult.panicked m ≠ ParseResult.apiParseErr e) := by
  refine ⟨?_, ?_, ?_, ?_, by rfl, by rfl, by rfl, ?_⟩
  · intro raw i pid cid s name item hmemo hidx hinner
    unfold _parse_item
    rw [hmemo, hidx]
    dsimp only
    rw [hinner]
  · intro raw i cid s name T item hmemo hidx hinner
    unfold _parse_item
    rw [hmemo, hidx]
    dsimp only
    rw [hinner]
  · intro pids api m n T hT
    unfold deferredImportStep
    dsimp only
    rw [hT]
  · intro pids api m n T hT
    unfold deferredImportStep
    dsimp only
    rw [hT]
  · intro m e h
    cases h

/-- The parser state after processing the root module of the glob document. -/
def c10s : ParserState :=
  (parseStep docGlob none 0 { initState docGlob with unprocessed := [] }).getOkD
    (initState docGlob)

/-- Witness for C10: resolving the glob-import descriptor of `docGlob` from
the post-root state panics. -/
theorem c10_unlisted_panic_conditions_witness :
    _parse_item docGlob 1 (some 0) none c10s =
      Res.panicked ("import target id is missing") :=
  c10_unlisted_panic_conditions.1 docGlob 1 (some 0) none c10s "g"
    { crate_id := 0, name := none, span := none, inner := ItemEnum.Import "g" none }
    rfl rfl rfl

/-! ### C5: append-only evolution, and the item-handle reassignment -/

/-- State after processing the root of `docTwoLeaves`. -/
def c5s1 : ParserState :=
  (parseStep docTwoLeaves none 0 { initState docTwoLeaves with unprocessed := [] }).getOkD
    (initState docTwoLeaves)

/-- State after additionally processing the first path-less leaf. -/
def c5s2 : ParserState := (parseStep docTwoLeaves (some 0) 1 c5s1).getOkD c5s1

/-- State after additionally processing the second path-less leaf. -/
def c5s3 : ParserState := (parseStep docTwoLeaves (some 0) 2 c5s2).getOkD c5s2

/-- The graph parsed from `docTwoLeaves`. -/
def c5api : Api :=
  (parse_raw (fun _ => Except.ok docTwoLeaves) 10 "" "Cargo.toml").getOkD Api.empty

/-- Counterexample to C5 as stated: in `docTwoLeaves` (an accepted document:
the parse returns a graph), the root path's item handle is set to item 0 when
the first path-less leaf resolves to it and then reassigned to item 1 when
the second one does — so a path's item handle is not set at most once. -/
theorem c5_counterexample :
    (c5s2.api.paths[0]?).map Path.item_id = some (some 0) ∧
    (c5s3.api.paths[0]?).map Path.item_id = some (some 1) ∧
    parse_raw (fun _ => Except.ok docTwoLeaves) 10 "" "Cargo.toml" =
      ParseResult.ok c5api ∧
    (c5api.paths[0]?).map Path.item_id = some (some 1) :=
  ⟨rfl, rfl, rfl, rfl⟩

/-- C5 (amended): throughout one parse — each work-loop step, the whole work
loop, and the whole deferred pass — the three arenas are append-only: old
crate and item entries are never mutated, and an old path entry changes only
by appending to its children list or by (re)assigning its item handle to a
defined item; kind, name, crate handle and span are frozen, and a set root
handle stays set.  (The claim's "item handle set at most once" does not hold;
see the counterexample.) -/
theorem c5_append_only_amended :
    (∀ (raw : RawCrate) (pp : Option PathId) (i : RawId) (s s' : ParserState),
      parseStep raw pp i s = Res.ok s' → Api.Extends s.api s'.api) ∧
    (∀ (raw : RawCrate) (fuel : Nat) (s s' : ParserState),
      parseLoop raw fuel s = Res.ok s' → Api.Extends s.api s'.api) ∧
    (∀ (pids : List (RawId × Option PathId)) (api : Api)
        (ts : List (PathId × String × RawId)) (api' : Api),
      runDeferred pids api ts = Res.ok api' → Api.Extends api api') :=
  ⟨fun _ _ _ _ _ h => (parseStep_extends h).1,
   fun _ _ _ _ h => (parseLoop_extends h).1,
   fun _ _ _ _ h => runDeferred_extends h⟩

/-- The final loop state of scenario A. -/
def docAState : ParserState :=
  (parseLoop docA 10 (initState docA)).getOkD (initState docA)

/-- Witness for (amended) C5 on scenario A's work loop. -/
theorem c5_append_only_amended_witness :
    Api.Extends (initState docA).api docAState.api :=
  c5_append_only_amended.2.1 docA 10 (initState docA) docAState rfl

/-! ### C6: ids without a path-table entry resolve to the parent's handle -/

/-- The path memo table never claims more than the path table offers: a
positively memoized id has a path-table entry, a negatively memoized id has
none. -/
def PathMemoInv (raw : RawCrate) (s : ParserState) : Prop :=
  (∀ (i : RawId) (pi : PathId), assocLookup i s.path_ids = some (some pi) →
    ∃ ps, assocLookup i raw.paths = some ps) ∧
  (∀ i : RawId, assocLookup i s.path_ids = some none →
    assocLookup i raw.paths = none)

theorem pathMemoInv_parse_path {raw : RawCrate} {pp : Option PathId} {i : RawId}
    {cid : Option CrateId} {s : ParserState} {p : Option PathId} {s' : ParserState}
    (h : _parse_path raw pp i cid s = Res.ok (p, s'))
    (inv : PathMemoInv raw s) : PathMemoInv raw s' := by
  unfold _parse_path at h
  split at h
  · cases h; exact inv
  · split at h
    · rename_i hnone
      cases h
      refine ⟨?_, ?_⟩
      · intro j pj hl
        by_cases hj : j = i
        · subst hj
          rw [assocLookup_cons_self] at hl
          cases hl
        · rw [assocLookup_cons_ne _ _ hj] at hl
          exact inv.1 j pj hl
      · intro j hl
        by_cases hj : j = i
        · subst hj; exact hnone
        · rw [assocLookup_cons_ne _ _ hj] at hl
          exact inv.2 j hl
    · rename_i ps hsome
      split at h
      · cases h
      · split at h
        · cases h
        · cases h
        · split at h
          · cases h
            refine ⟨?_, ?_⟩
            · intro j pj hl
              by_cases hj : j = i
              · subst hj; exact ⟨ps, hsome⟩
              · rw [assocLookup_cons_ne _ _ hj] at hl
                exact inv.1 j pj hl
            · intro j hl
              by_cases hj : j = i
              · subst hj
                rw [assocLookup_cons_self] at hl
                cases hl
              · rw [assocLookup_cons_ne _ _ hj] at hl
                exact inv.2 j hl
          · dsimp only at h
            split at h
            · cases h
            · cases h
              refine ⟨?_, ?_⟩
              · intro j pj hl
                by_cases hj : j = i
                · subst hj; exact ⟨ps, hsome⟩
                · rw [assocLookup_cons_ne _ _ hj] at hl
                  exact inv.1 j pj hl
              · intro j hl
                by_cases hj : j = i
                · subst hj
                  rw [assocLookup_cons_self] at hl
                  cases hl
                · rw [assocLookup_cons_ne _ _ hj] at hl
                  exact inv.2 j hl

theorem pathMemoInv_parseStep {raw : RawCrate} {pp : Option PathId} {i : RawId}
    {s s' : ParserState} (h : parseStep raw pp i s = Res.ok s')
    (inv : PathMemoInv raw s) : PathMemoInv raw s' := by
  unfold parseStep at h
  split at h
  · cases h
  · split at h
    · cases h
    · cases h
    · rename_i cid s1 hc
      split at h
      · cases h
      · cases h
      · rename_i pid s2 hp
        split at h
        · cases h
        · cases h
        · rename_i it s3 hi
          cases h
          have hc' := _parse_crate_frame hc
          have inv1 : PathMemoInv raw s1 := by
            rw [PathMemoInv, hc'.2.2.2.1]
            exact inv
          have inv2 := pathMemoInv_parse_path hp inv1
          have hi' := _parse_item_frame hi
          rw [PathMemoInv, hi'.2.2.2.1]
          exact inv2

theorem pathMemoInv_parseLoop {raw : RawCrate} :
    ∀ {fuel : Nat} {s s' : ParserState}, parseLoop raw fuel s = Res.ok s' →
      PathMemoInv raw s → PathMemoInv raw s' := by
  intro fuel
  induction fuel with
  | zero =>
    intro s s' h inv
    unfold parseLoop at h
    split at h
    · cases h; exact inv
    · cases h
  | succ fuel ih =>
    intro s s' h inv
    unfold parseLoop at h
    split at h
    · cases h; exact inv
    · rename_i parent i rest hq
      split at h
      · rename_i s1 hstep
        refine ih h (pathMemoInv_parseStep hstep ?_)
        exact inv
      · cases h
      · cases h

/-- C6: a raw id with no entry in the path table creates no new path: its
path resolution memoizes a negative result and leaves the graph untouched,
the work-loop step hands the enclosing parent's path handle unchanged to
item resolution, and in any state reachable from the start of a parse such
an id is never positively memoized. -/
theorem c6_no_path_entry_reuses_parent :
    (∀ (raw : RawCrate) (pp : Option PathId) (i : RawId) (cid : Option CrateId)
        (s : ParserState) (p : Option PathId) (s' : ParserState),
      assocLookup i raw.paths = none →
      assocLookup i s.path_ids = none →
      _parse_path raw pp i cid s = Res.ok (p, s') →
      p = none ∧ s' = { s with path_ids := (i, none) :: s.path_ids }) ∧
    (∀ (raw : RawCrate) (pp : Option PathId) (i : RawId) (s s' : ParserState)
        (item : RawItem),
      assocLookup i raw.index = some item →
      assocLookup i raw.paths = none →
      (assocLookup i s.path_ids = none ∨ assocLookup i s.path_ids = some none) →
      parseStep raw pp i s = Res.ok s' →
      s'.api.paths.length = s.api.paths.length ∧
      ∃ (cid : Option CrateId) (s1 s2 : ParserState) (r : Option ItemId),
        _parse_crate raw item.crate_id s = Res.ok (cid, s1) ∧
        _parse_path raw pp i cid s1 = Res.ok (none, s2) ∧
        _parse_item raw i pp cid s2 = Res.ok (r, s')) ∧
    (∀ (raw : RawCrate) (fuel : Nat) (s' : ParserState),
      parseLoop raw fuel (initState raw) = Res.ok s' →
      ∀ i : RawId, assocLookup i raw.paths = none →
        assocLookup i s'.path_ids = none ∨ assocLookup i s'.path_ids = some none) := by
  refine ⟨?_, ?_, ?_⟩
  · intro raw pp i cid s p s' hpaths hmemo h
    have hcall : _parse_path raw pp i cid s =
        Res.ok (none, { s with path_ids := (i, none) :: s.path_ids }) := by
      unfold _parse_path
      rw [hmemo, hpaths]
    rw [hcall] at h
    cases h
    exact ⟨rfl, rfl⟩
  · intro raw pp i s s' item hidx hpaths hmemo hstep
    unfold parseStep at hstep
    rw [hidx] at hstep
    dsimp only at hstep
    split at hstep
    · cases hstep
    · cases hstep
    · rename_i cid s1 hc
      have hc' := _parse_crate_frame hc
      have hmemo1 : assocLookup i s1.path_ids = none ∨
          assocLookup i s1.path_ids = some none := by
        rw [hc'.2.2.2.1]; exact hmemo
      have hp' : _parse_path raw pp i cid s1 =
          Res.ok (none, if assocLookup i s1.path_ids = none
            then { s1 with path_ids := (i, none) :: s1.path_ids } else s1) := by
        rcases hmemo1 with hm | hm
        · rw [if_pos hm]
          unfold _parse_path
          rw [hm, hpaths]
        · rw [if_neg (by rw [hm]; intro hcon; cases hcon)]
          unfold _parse_path
          rw [hm]
      split at hstep
      · cases hstep
      · cases hstep
      · rename_i pid s2 hp
        rw [hp'] at hp
        cases hp
        split at hstep
        · cases hstep
        · cases hstep
        · rename_i it s3 hi
          cases hstep
          have hor : Option.or none pp = pp := by cases pp <;> rfl
          rw [hor] at hi
          have hi' := _parse_item_frame hi
          constructor
          · rw [hi'.2.2.2.2.2]
            rcases hmemo1 with hm | hm
            · rw [if_pos hm]
              exact hc'.1 ▸ rfl
            · rw [if_neg (by rw [hm]; intro hcon; cases hcon)]
              exact hc'.1 ▸ rfl
          · exact ⟨cid, s1, _, it, hc, hp', hi⟩
  · intro raw fuel s' h i hpaths
    have inv : PathMemoInv raw s' := by
      refine pathMemoInv_parseLoop h ⟨?_, ?_⟩
      · intro j pj hl
        simp [initState, assocLookup] at hl
      · intro j hl
        simp [initState, assocLookup] at hl
    match hcase : assocLookup i s'.path_ids with
    | none => exact Or.inl rfl
    | some none => exact Or.inr rfl
    | some (some pi) =>
      obtain ⟨ps, hps⟩ := inv.1 i pi hcase
      rw [hpaths] at hps
      cases hps

/-- The result of resolving the path-less leaf of `docLeafNoPath`. -/
def c6w : Option PathId × ParserState :=
  (_parse_path docLeafNoPath (some 0) 1 none (initState docLeafNoPath)).getOkD
    (none, initState docLeafNoPath)

/-- Witness for C6: the path-less leaf of `docLeafNoPath` resolves to no own
path and only records the negative memo entry. -/
theorem c6_no_path_entry_reuses_parent_witness :
    c6w.1 = none ∧
    c6w.2 = { initState docLeafNoPath with
              path_ids := (1, none) :: (initState docLeafNoPath).path_ids } :=
  c6_no_path_entry_reuses_parent.1 docLeafNoPath (some 0) 1 none
    (initState docLeafNoPath) c6w.1 c6w.2 rfl rfl rfl

/-! ### C7: crate resolution -/

/-- If an index query of a list succeeds, the index is in range. -/
theorem lt_of_getElem?_some {α : Type} {l : List α} {j : Nat} {a : α}
    (h : l[j]? = some a) : j < l.length := by
  by_contra hge
  rw [List.getElem?_eq_none (Nat.le_of_not_lt hge)] at h
  cases h

/-- The crate-resolution bookkeeping: crate number 0 is only ever memoized
negatively; a positively memoized number is nonzero and owns the arena entry
named per its registry entry; distinct numbers own distinct entries; and
every arena entry is owned by some number. -/
def CrateMemoInv (raw : RawCrate) (s : ParserState) : Prop :=
  (∀ v : Option CrateId, assocLookup 0 s.crate_ids = some v → v = none) ∧
  (∀ (n : Nat) (c : CrateId), assocLookup n s.crate_ids = some (some c) →
    n ≠ 0 ∧ ∃ rc, assocLookup n raw.external_crates = some rc ∧
      s.api.crates[c]? = some (Crate.new rc.name)) ∧
  (∀ (n m : Nat) (c : CrateId), assocLookup n s.crate_ids = some (some c) →
    assocLookup m s.crate_ids = some (some c) → n = m) ∧
  (∀ c : CrateId, c < s.api.crates.length →
    ∃ n, assocLookup n s.crate_ids = some (some c))

theorem crateMemoInv_parse_crate {raw : RawCrate} {n : Nat} {s : ParserState}
    {c : Option CrateId} {s' : ParserState}
    (h : _parse_crate raw n s = Res.ok (c, s'))
    (inv : CrateMemoInv raw s) : CrateMemoInv raw s' := by
  unfold _parse_crate at h
  split at h
  · cases h; exact inv
  · rename_i hmiss
    split at h
    · rename_i hne
      split at h
      · cases h
      · rename_i rc hrc
        cases h
        obtain ⟨i1, i2, i3, i4⟩ := inv
        refine ⟨?_, ?_, ?_, ?_⟩
        · intro v hl
          rw [assocLookup_cons_ne _ _ (fun h0 => hne h0.symm)] at hl
          exact i1 v hl
        · intro m c' hl
          by_cases hm : m = n
          · subst hm
            rw [assocLookup_cons_self] at hl
            cases hl
            exact ⟨hne, rc, hrc, List.getElem?_concat_length _ _⟩
          · rw [assocLookup_cons_ne _ _ hm] at hl
            obtain ⟨hm0, rc', h1, h2⟩ := i2 m c' hl
            exact ⟨hm0, rc', h1, getElem?_append_left' h2⟩
        · intro a b c' ha hb
          by_cases haa : a = n <;> by_cases hbb : b = n
          · rw [haa, hbb]
          · subst haa
            rw [assocLookup_cons_self] at ha
            cases ha
            rw [assocLookup_cons_ne _ _ hbb] at hb
            obtain ⟨-, rc', -, h2⟩ := i2 b _ hb
            exact absurd (lt_of_getElem?_some h2) (Nat.lt_irrefl _)
          · subst hbb
            rw [assocLookup_cons_self] at hb
            cases hb
            rw [assocLookup_cons_ne _ _ haa] at ha
            obtain ⟨-, rc', -, h2⟩ := i2 a _ ha
            exact absurd (lt_of_getElem?_some h2) (Nat.lt_irrefl _)
          · rw [assocLookup_cons_ne _ _ haa] at ha
            rw [assocLookup_cons_ne _ _ hbb] at hb
            exact i3 a b c' ha hb
        · intro c' hc'
          rw [List.length_append, List.length_cons, List.length_nil] at hc'
          rcases Nat.lt_succ_iff_lt_or_eq.mp hc' with hlt | heq
          · obtain ⟨m, hm⟩ := i4 c' hlt
            exact ⟨m, assocLookup_cons_of_none _ hmiss m _ hm⟩
          · subst heq
            exact ⟨n, assocLookup_cons_self _ _ _⟩
    · rename_i hne
      cases h
      obtain ⟨i1, i2, i3, i4⟩ := inv
      have hn0 : n = 0 := Decidable.not_not.mp (fun h0 => hne h0)
      refine ⟨?_, ?_, ?_, ?_⟩
      · intro v hl
        by_cases h0 : (0 : Nat) = n
        · rw [← h0] at hl
          rw [assocLookup_cons_self] at hl
          cases hl
          rfl
        · rw [assocLookup_cons_ne _ _ h0] at hl
          exact i1 v hl
      · intro m c' hl
        by_cases hm : m = n
        · subst hm
          rw [assocLookup_cons_self] at hl
          cases hl
        · rw [assocLookup_cons_ne _ _ hm] at hl
          exact i2 m c' hl
      · intro a b c' ha hb
        by_cases haa : a = n
        · subst haa
          rw [assocLookup_cons_self] at ha
          cases ha
        · by_cases hbb : b = n
          · subst hbb
            rw [assocLookup_cons_self] at hb
            cases hb
          · rw [assocLookup_cons_ne _ _ haa] at ha
            rw [assocLookup_cons_ne _ _ hbb] at hb
            exact i3 a b c' ha hb
      · intro c' hc'
        obtain ⟨m, hm⟩ := i4 c' hc'
        exact ⟨m, assocLookup_cons_of_none _ hmiss m _ hm⟩

theorem crateMemoInv_parseStep {raw : RawCrate} {pp : Option PathId} {i : RawId}
    {s s' : ParserState} (h : parseStep raw pp i s = Res.ok s')
    (inv : CrateMemoInv raw s) : CrateMemoInv raw s' := by
  unfold parseStep at h
  split at h
  · cases h
  · split at h
    · cases h
    · cases h
    · rename_i cid s1 hc
      split at h
      · cases h
      · cases h
      · rename_i pid s2 hp
        split at h
        · cases h
        · cases h
        · rename_i it s3 hi
          cases h
          have inv1 := crateMemoInv_parse_crate hc inv
          have hp' := _parse_path_frame hp
          have inv2 : CrateMemoInv raw s2 := by
            unfold CrateMemoInv
            rw [hp'.2.2.1, hp'.1]
            exact inv1
          have hi' := _parse_item_frame hi
          unfold CrateMemoInv
          rw [hi'.2.2.1, hi'.1]
          exact inv2

theorem crateMemoInv_parseLoop {raw : RawCrate} :
    ∀ {fuel : Nat} {s s' : ParserState}, parseLoop raw fuel s = Res.ok s' →
      CrateMemoInv raw s → CrateMemoInv raw s' := by
  intro fuel
  induction fuel with
  | zero =>
    intro s s' h inv
    unfold parseLoop at h
    split at h
    · cases h; exact inv
    · cases h
  | succ fuel ih =>
    intro s s' h inv
    unfold parseLoop at h
    split at h
    · cases h; exact inv
    · rename_i parent i rest hq
      split at h
      · rename_i s1 hstep
        exact ih h (crateMemoInv_parseStep hstep inv)
      · cases h
      · cases h

/-- C7: in any completed work loop, crate number 0 was never turned into a
`Crate` entity (it is at most negatively memoized); every other reached
number is memoized to exactly one arena entry, named per its external-crate
registry entry; distinct numbers own distinct entries and every entry is
owned by exactly one number; the deferred pass never adds crates; and any
later sighting of a memoized number is answered from the cache without
touching the state. -/
theorem c7_crate_resolution :
    (∀ (raw : RawCrate) (fuel : Nat) (s' : ParserState),
      parseLoop raw fuel (initState raw) = Res.ok s' →
      (assocLookup 0 s'.crate_ids = none ∨ assocLookup 0 s'.crate_ids = some none) ∧
      (∀ (n : Nat) (c : CrateId), assocLookup n s'.crate_ids = some (some c) →
        n ≠ 0 ∧ ∃ rc, assocLookup n raw.external_crates = some rc ∧
          s'.api.crates[c]? = some (Crate.new rc.name)) ∧
      (∀ (n m : Nat) (c : CrateId), assocLookup n s'.crate_ids = some (some c) →
        assocLookup m s'.crate_ids = some (some c) → n = m) ∧
      (∀ c : CrateId, c < s'.api.crates.length →
        ∃ n, assocLookup n s'.crate_ids = some (some c)) ∧
      (∀ api' : Api, runDeferred s'.path_ids s'.api s'.deferred_imports = Res.ok api' →
        api'.crates = s'.api.crates)) ∧
    (∀ (raw : RawCrate) (n : Nat) (s : ParserState) (c : Option CrateId),
      assocLookup n s.crate_ids = some c → _parse_crate raw n s = Res.ok (c, s)) := by
  constructor
  · intro raw fuel s' h
    have inv : CrateMemoInv raw s' := by
      refine crateMemoInv_parseLoop h ⟨?_, ?_, ?_, ?_⟩
      · intro v hv
        simp [initState, assocLookup] at hv
      · intro n c hl
        simp [initState, assocLookup] at hl
      · intro n m c hn hm
        simp [initState, assocLookup] at hn
      · intro c hc
        simp [initState, Api.empty] at hc
    refine ⟨?_, inv.2.1, inv.2.2.1, inv.2.2.2, ?_⟩
    · match h0 : assocLookup 0 s'.crate_ids with
      | none => exact Or.inl rfl
      | some v => exact Or.inr (by rw [inv.1 v h0])
    · intro api' hdef
      exact (runDeferred_frame hdef).2.1
  · intro raw n s c h
    unfold _parse_crate
    rw [h]

/-- The final loop state of scenario B. -/
def c7s : ParserState := (parseLoop docB 10 (initState docB)).getOkD (initState docB)

/-- Witness for C7: in scenario B, crate number 7 owns arena entry 0, named
per the registry. -/
theorem c7_crate_resolution_witness :
    (7 : Nat) ≠ 0 ∧ ∃ rc, assocLookup 7 docB.external_crates = some rc ∧
      c7s.api.crates[0]? = some (Crate.new rc.name) :=
  (c7_crate_resolution.1 docB 10 c7s rfl).2.1 7 0 (by decide)

/-! ### C3: the root path -/

/-- The root bookkeeping: while no root is set the graph has no paths and no
items (a leaf reached before any path aborts), and a set root is always the
arena's first path, handle 0. -/
def RootInv (s : ParserState) : Prop :=
  (s.api.root_id = none → s.api.paths = [] ∧ s.api.items = []) ∧
  (∀ r : PathId, s.api.root_id = some r → r = 0)

theorem rootInv_parse_path {raw : RawCrate} {pp : Option PathId} {i : RawId}
    {cid : Option CrateId} {s : ParserState} {p : Option PathId} {s' : ParserState}
    (h : _parse_path raw pp i cid s = Res.ok (p, s'))
    (inv : RootInv s) : RootInv s' := by
  unfold _parse_path at h
  split at h
  · cases h; exact inv
  · split at h
    · cases h; exact inv
    · split at h
      · cases h
      · split at h
        · cases h
        · cases h
        · split at h
          · cases h
            refine ⟨fun hr => (by cases hr), ?_⟩
            intro r hr
            cases hr
            match hr0 : s.api.root_id with
            | some r0 =>
              simp only [Option.getD]
              exact inv.2 r0 hr0
            | none =>
              simp only [Option.getD]
              rw [(inv.1 hr0).1]
              rfl
          · dsimp only at h
            split at h
            · cases h
            · cases h
              refine ⟨fun hr => (by cases hr), ?_⟩
              intro r hr
              cases hr
              match hr0 : s.api.root_id with
              | some r0 =>
                simp only [Option.getD]
                exact inv.2 r0 hr0
              | none =>
                simp only [Option.getD]
                rw [(inv.1 hr0).1]
                rfl

theorem rootInv_parse_item {raw : RawCrate} {i : RawId} {pid : Option PathId}
    {cid : Option CrateId} {s : ParserState} {it : Option ItemId} {s' : ParserState}
    (h : _parse_item raw i pid cid s = Res.ok (it, s'))
    (inv : RootInv s) : RootInv s' := by
  unfold _parse_item at h
  split at h
  · cases h; exact inv
  · split at h
    · cases h
    · split at h
      · cases h; exact inv
      · split at h
        · cases h
        · split at h
          · cases h
          · cases h; exact inv
      · cases h; exact inv
      · cases h; exact inv
      · cases h; exact inv
      · split at h
        · cases h
        · rename_i rid hroot
          dsimp only at h
          split at h
          · cases h
            exact ⟨fun hr => (nomatch hroot.symm.trans hr),
              fun r hr => inv.2 r hr⟩
          · split at h
            · cases h
            · rename_i pid' hscrut paths' hmod
              cases h
              exact ⟨fun hr => (nomatch hroot.symm.trans hr),
                fun r hr => inv.2 r hr⟩

theorem rootInv_parseStep {raw : RawCrate} {pp : Option PathId} {i : RawId}
    {s s' : ParserState} (h : parseStep raw pp i s = Res.ok s')
    (inv : RootInv s) : RootInv s' := by
  unfold parseStep at h
  split at h
  · cases h
  · split at h
    · cases h
    · cases h
    · rename_i cid s1 hc
      split at h
      · cases h
      · cases h
      · rename_i pid s2 hp
        split at h
        · cases h
        · cases h
        · rename_i it s3 hi
          cases h
          have hc' := _parse_crate_frame hc
          have inv1 : RootInv s1 := by
            unfold RootInv
            rw [hc'.1, hc'.2.1, hc'.2.2.1]
            exact inv
          exact rootInv_parse_item hi (rootInv_parse_path hp inv1)

theorem rootInv_parseLoop {raw : RawCrate} :
    ∀ {fuel : Nat} {s s' : ParserState}, parseLoop raw fuel s = Res.ok s' →
      RootInv s → RootInv s' := by
  intro fuel
  induction fuel with
  | zero =>
    intro s s' h inv
    unfold parseLoop at h
    split at h
    · cases h; exact inv
    · cases h
  | succ fuel ih =>
    intro s s' h inv
    unfold parseLoop at h
    split at h
    · cases h; exact inv
    · rename_i parent i rest hq
      split at h
      · rename_i s1 hstep
        exact ih h (rootInv_parseStep hstep inv)
      · cases h
      · cases h

/-- A deferred-import task cannot succeed on a graph with no paths at all. -/
theorem deferredImportStep_no_paths {pids : List (RawId × Option PathId)}
    {api : Api} {t : PathId × String × RawId} {api' : Api}
    (hnil : api.paths = []) (h : deferredImportStep pids api t = Res.ok api') :
    False := by
  obtain ⟨m, n, T⟩ := t
  unfold deferredImportStep at h
  dsimp only at h
  split at h
  · cases h
  · cases h
  · split at h
    · cases h
    · rename_i tp htp
      rw [hnil] at htp
      cases htp

/-- In a parse started from the seeded queue whose root id has a path-table
entry of module kind, the loop's final state has root handle 0 carrying a
module-kind path. -/
theorem rootModule_parseLoop_init {raw : RawCrate} {fuel : Nat} {s' : ParserState}
    {ps : ItemSummary} (hps : assocLookup raw.root raw.paths = some ps)
    (hkind : ps.kind = ItemKind.Module)
    (h : parseLoop raw fuel (initState raw) = Res.ok s') :
    s'.api.root_id = some 0 ∧
    ∃ p, s'.api.paths[0]? = some p ∧ p.kind = PathKind.Module := by
  cases fuel with
  | zero =>
    unfold parseLoop at h
    split at h
    · rename_i hemp
      simp [initState] at hemp
    · cases h
  | succ fuel =>
    unfold parseLoop at h
    split at h
    · rename_i hemp
      simp [initState] at hemp
    · rename_i parent i rest hq
      simp only [initState, List.cons.injEq, Prod.mk.injEq] at hq
      obtain ⟨⟨e1, e2⟩, e3⟩ := hq
      subst e1; subst e2; subst e3
      split at h
      · rename_i s1 hstep
        unfold parseStep at hstep
        split at hstep
        · cases hstep
        · rename_i item hidx
          split at hstep
          · cases hstep
          · cases hstep
          · rename_i cid sc hc
            obtain ⟨hcP, hcI, hcR, hcPid, hcIid, hcU, hcD⟩ := _parse_crate_frame hc
            have hpids : sc.path_ids = ([] : List (RawId × Option PathId)) := by
              rw [hcPid]
              rfl
            have hscp : sc.api.paths = ([] : List Path) := by
              rw [hcP]
              rfl
            have hscr : sc.api.root_id = none := by
              rw [hcR]
              rfl
            split at hstep
            · cases hstep
            · cases hstep
            · rename_i pid s2 hp
              unfold _parse_path at hp
              rw [hpids] at hp
              simp only [assocLookup] at hp
              rw [hps] at hp
              dsimp only at hp
              rw [hidx] at hp
              dsimp only at hp
              rw [hkind] at hp
              dsimp only [_convert_path_kind] at hp
              cases hp
              split at hstep
              · cases hstep
              · cases hstep
              · rename_i it s3 hi
                cases hstep
                obtain ⟨-, hiR, -, -, hiP, -⟩ := _parse_item_frame hi
                have hr2 : s1.api.root_id = some 0 := by
                  rw [hiR]
                  dsimp only
                  rw [hscr, hscp]
                  rfl
                have hp2 : ∃ p3, s1.api.paths[0]? = some p3 ∧
                    p3.kind = PathKind.Module := by
                  have hget : (sc.api.paths ++
                      [{ Path.new PathKind.Module
                            (String.intercalate ("::") ps.path) with
                          crate_id := cid, span := item.span }])[0]? =
                      some { Path.new PathKind.Module
                            (String.intercalate ("::") ps.path) with
                          crate_id := cid, span := item.span } := by
                    rw [hscp]
                    rfl
                  obtain ⟨p3, h3, hk3, -⟩ := hiP 0 _ hget
                  exact ⟨p3, h3, hk3⟩
                obtain ⟨p3, h3, hk3⟩ := hp2
                have ext := (parseLoop_extends h).1
                refine ⟨ext.2.2.2.2 0 hr2, ?_⟩
                obtain ⟨p', hget', pext⟩ := ext.2.2.2.1 0 p3 h3
                exact ⟨p', hget', pext.1.trans hk3⟩
      · cases h
      · cases h

/-- The graph parsed from `docRootKindFn`. -/
def c3api : Api :=
  (parse_raw (fun _ => Except.ok docRootKindFn) 10 "" "Cargo.toml").getOkD Api.empty

/-- Counterexample to C3 as stated: `docRootKindFn` is accepted by parse, yet
its root path has kind function, not module — the path-table kind is taken
as-is, nothing forces the root to be a module. -/
theorem c3_counterexample :
    parse_raw (fun _ => Except.ok docRootKindFn) 10 "" "Cargo.toml" =
      ParseResult.ok c3api ∧
    c3api.root_id = some 0 ∧
    (c3api.paths[0]?).map Path.kind = some PathKind.Function ∧
    PathKind.Function ≠ PathKind.Module :=
  ⟨rfl, rfl, rfl, by decide⟩

/-- C3 (amended): provided the root id's path-table entry exists and has
module kind, the root path of the returned graph has kind module; in every
accepted parse the root handle is 0 — the first path ever created — and
while no root exists the graph has no paths and no items at all (so no item
handle is ever set on any path before the root exists; a leaf reached
earlier aborts the parse). -/
theorem c3_root_invariant_amended :
    (∀ (raw : RawCrate) (fuel : Nat) (s' : ParserState) (ps : ItemSummary),
      assocLookup raw.root raw.paths = some ps →
      ps.kind = ItemKind.Module →
      parseLoop raw fuel (initState raw) = Res.ok s' →
      s'.api.root_id = some 0 ∧
      ∃ p, s'.api.paths[0]? = some p ∧ p.kind = PathKind.Module) ∧
    (∀ (raw : RawCrate) (fuel : Nat) (s' : ParserState),
      parseLoop raw fuel (initState raw) = Res.ok s' →
      (s'.api.root_id = none → s'.api.paths = [] ∧ s'.api.items = []) ∧
      (∀ r, s'.api.root_id = some r → r = 0)) ∧
    (∀ (deser : String → Except String RawCrate) (fuel : Nat) (json mp : String)
        (api : Api) (rawC : RawCrate),
      parse_raw deser fuel json mp = ParseResult.ok api →
      deser json = Except.ok rawC →
      (api.root_id = none → api.paths = [] ∧ api.items = []) ∧
      (∀ r, api.root_id = some r → r = 0) ∧
      (∀ ps : ItemSummary, assocLookup rawC.root rawC.paths = some ps →
        ps.kind = ItemKind.Module →
        api.root_id = some 0 ∧
        ∃ p, api.paths[0]? = some p ∧ p.kind = PathKind.Module)) := by
  have init_inv : ∀ raw : RawCrate, RootInv (initState raw) :=
    fun raw => ⟨fun _ => ⟨rfl, rfl⟩, fun r hr => by cases hr⟩
  refine ⟨?_, ?_, ?_⟩
  · intro raw fuel s' ps hps hkind h
    exact rootModule_parseLoop_init hps hkind h
  · intro raw fuel s' h
    exact rootInv_parseLoop h (init_inv raw)
  · intro deser fuel json mp api rawC hparse hdeser
    unfold parse_raw RustDocParser.parse at hparse
    rw [hdeser] at hparse
    dsimp only at hparse
    split at hparse
    · cases hparse
    · cases hparse
    · rename_i s hloop
      split at hparse
      · cases hparse
      · cases hparse
      · rename_i api0 hdef
        cases hparse
        obtain ⟨hdR, hdC, hdI⟩ := runDeferred_frame hdef
        have inv := rootInv_parseLoop hloop (init_inv rawC)
        refine ⟨?_, ?_, ?_⟩
        · intro hr
          rw [hdR] at hr
          obtain ⟨hpaths, hitems⟩ := inv.1 hr
          refine ⟨?_, by rw [hdI, hitems]⟩
          match hts : s.deferred_imports with
          | [] =>
            rw [hts] at hdef
            unfold runDeferred at hdef
            cases hdef
            exact hpaths
          | t :: ts =>
            rw [hts] at hdef
            unfold runDeferred at hdef
            split at hdef
            · rename_i api1 hstep
              exact absurd hstep (fun hs => deferredImportStep_no_paths hpaths hs)
            · cases hdef
            · cases hdef
        · intro r hr
          rw [hdR] at hr
          exact inv.2 r hr
        · intro ps hps hkind
          obtain ⟨hr, p, hget, hkp⟩ := rootModule_parseLoop_init hps hkind hloop
          refine ⟨by rw [hdR, hr], ?_⟩
          obtain ⟨p', hget', pext⟩ := (runDeferred_extends hdef).2.2.2.1 0 p hget
          exact ⟨p', hget', pext.1.trans hkp⟩

/-- Witness for (amended) C3 on scenario A. -/
theorem c3_root_invariant_amended_witness :
    docAState.api.root_id = some 0 ∧
    ∃ p, docAState.api.paths[0]? = some p ∧ p.kind = PathKind.Module :=
  c3_root_invariant_amended.1 docA 10 docAState
    { crate_id := 0, path := ["lib"], kind := ItemKind.Module } rfl rfl rfl

/-! ### C4: container kinds and item handles -/

/-- The container path kinds of the claim: module, trait, impl, enum. -/
def isContainer (k : PathKind) : Prop :=
  k = PathKind.Module ∨ k = PathKind.Trait ∨ k = PathKind.Impl ∨ k = PathKind.Enum

instance (k : PathKind) : Decidable (isContainer k) := by
  unfold isContainer
  infer_instance

/-- Well-formedness of a raw document for the container/leaf discipline:
every leaf descriptor (the `_` arm of `_parse_item`) owns a path-table entry
whose kind is not a container kind.  Real rustdoc output satisfies this; the
engine does not check it. -/
def WFDoc (raw : RawCrate) : Prop :=
  ∀ (i : RawId) (item : RawItem), assocLookup i raw.index = some item →
    item.inner = ItemEnum.OtherLeaf →
    ∃ ps, assocLookup i raw.paths = some ps ∧
      ps.kind ≠ ItemKind.Module ∧ ps.kind ≠ ItemKind.Trait ∧
      ps.kind ≠ ItemKind.Impl ∧ ps.kind ≠ ItemKind.Enum

/-- The classification maps non-container raw kinds to non-container path
kinds. -/
theorem convert_not_container :
    ∀ (k : ItemKind) (pk : PathKind), _convert_path_kind k = Res.ok pk →
      k ≠ ItemKind.Module → k ≠ ItemKind.Trait → k ≠ ItemKind.Impl →
      k ≠ ItemKind.Enum → ¬ isContainer pk := by
  intro k pk h h1 h2 h3 h4
  cases k
  all_goals try exact absurd rfl h1
  all_goals try exact absurd rfl h2
  all_goals try exact absurd rfl h3
  all_goals try exact absurd rfl h4
  all_goals cases h
  all_goals decide

/-- After `_parse_path`, the resolved id is memoized to exactly the returned
value. -/
theorem _parse_path_memo_after {raw : RawCrate} {pp : Option PathId} {i : RawId}
    {cid : Option CrateId} {s : ParserState} {p : Option PathId} {s' : ParserState}
    (h : _parse_path raw pp i cid s = Res.ok (p, s')) :
    assocLookup i s'.path_ids = some p := by
  unfold _parse_path at h
  split at h
  · rename_i hmemo
    cases h
    exact hmemo
  · split at h
    · cases h
      exact assocLookup_cons_self _ _ _
    · split at h
      · cases h
      · split at h
        · cases h
        · cases h
        · split at h
          · cases h
            exact assocLookup_cons_self _ _ _
          · dsimp only at h
            split at h
            · cases h
            · cases h
              exact assocLookup_cons_self _ _ _

/-- The leaf/container bookkeeping (sound under `WFDoc`): container-kind
paths carry no item handle; a positively path-memoized id owns a path of the
kind classified from its path-table entry; negatively path-memoized ids have
no entry; a positively item-memoized id whose path memo is positive owns a
path carrying an item handle; and any item-memoized id is path-memoized. -/
def LeafInv (raw : RawCrate) (s : ParserState) : Prop :=
  (∀ (j : Nat) (p : Path), s.api.paths[j]? = some p →
    isContainer p.kind → p.item_id = none) ∧
  (∀ (i : RawId) (pi : PathId), assocLookup i s.path_ids = some (some pi) →
    ∃ ps pk, assocLookup i raw.paths = some ps ∧
      _convert_path_kind ps.kind = Res.ok pk ∧
      ∃ p, s.api.paths[pi]? = some p ∧ p.kind = pk) ∧
  (∀ i : RawId, assocLookup i s.path_ids = some none →
    assocLookup i raw.paths = none) ∧
  (∀ (i : RawId) (it : ItemId), assocLookup i s.item_ids = some (some it) →
    ∀ pi : PathId, assocLookup i s.path_ids = some (some pi) →
      ∃ p v, s.api.paths[pi]? = some p ∧ p.item_id = some v) ∧
  (∀ (i : RawId) (v : Option ItemId), assocLookup i s.item_ids = some v →
    ∃ w, assocLookup i s.path_ids = some w)


/-- Core step for `LeafInv` preservation: pushing a fresh non-item path for a
previously unresolved id `i` with a path-table entry, followed by any
children-only rewrite of existing entries, preserves the invariant. -/
theorem leafInv_push_aux {raw : RawCrate} {i : RawId} {s : ParserState}
    {ps : ItemSummary} {pk : PathKind}
    (hmiss : assocLookup i s.path_ids = none)
    (hsome : assocLookup i raw.paths = some ps)
    (hconv : _convert_path_kind ps.kind = Res.ok pk)
    (newPath : Path)
    (hknew : newPath.kind = pk) (hinew : newPath.item_id = none)
    (inv : LeafInv raw s) (paths2 : List Path) (newRoot : Option PathId)
    (hlen : paths2.length = s.api.paths.length + 1)
    (hent : ∀ (j : Nat) (q : Path), paths2[j]? = some q →
      ∃ p0, (s.api.paths ++ [newPath])[j]? = some p0 ∧
        q.kind = p0.kind ∧ q.item_id = p0.item_id) :
    LeafInv raw
      { s with
        api := { s.api with paths := paths2, root_id := newRoot },
        path_ids := (i, some s.api.paths.length) :: s.path_ids } := by
  obtain ⟨i1, i2, i3, i4, i5⟩ := inv
  refine ⟨?_, ?_, ?_, ?_, ?_⟩
  · -- container paths keep no item handle
    intro j q hq hcont
    obtain ⟨p0, hp0, hk, hi'⟩ := hent j q hq
    rw [hi']
    by_cases hj : j < s.api.paths.length
    · rw [List.getElem?_append_left hj] at hp0
      exact i1 j p0 hp0 (hk ▸ hcont)
    · rw [List.getElem?_append_right (Nat.le_of_not_lt hj)] at hp0
      match hd : j - s.api.paths.length with
      | 0 =>
        rw [hd] at hp0
        simp at hp0
        rw [← hp0]
        exact hinew
      | d + 1 =>
        rw [hd] at hp0
        simp at hp0
  · -- positively memoized ids own a path of the classified kind
    intro j pj hl
    by_cases hj : j = i
    · subst hj
      rw [assocLookup_cons_self] at hl
      cases hl
      refine ⟨ps, pk, hsome, hconv, ?_⟩
      have hlt : s.api.paths.length < paths2.length := by omega
      obtain ⟨q, hq⟩ : ∃ q, paths2[s.api.paths.length]? = some q :=
        ⟨_, List.getElem?_eq_getElem hlt⟩
      obtain ⟨p0, hp0, hk, -⟩ := hent _ q hq
      rw [List.getElem?_concat_length] at hp0
      cases hp0
      exact ⟨q, hq, by rw [hk, hknew]⟩
    · rw [assocLookup_cons_ne _ _ hj] at hl
      obtain ⟨ps', pk', h1, h2, pold, h3, h4⟩ := i2 j pj hl
      have hpj : pj < paths2.length := by
        rw [hlen]
        exact Nat.lt_succ_of_lt (lt_of_getElem?_some h3)
      obtain ⟨q, hq⟩ : ∃ q, paths2[pj]? = some q :=
        ⟨_, List.getElem?_eq_getElem hpj⟩
      obtain ⟨p0, hp0, hk, -⟩ := hent _ q hq
      rw [getElem?_append_left' h3] at hp0
      cases hp0
      exact ⟨ps', pk', h1, h2, q, hq, by rw [hk, h4]⟩
  · -- negatively memoized ids have no path-table entry
    intro j hl
    by_cases hj : j = i
    · subst hj
      rw [assocLookup_cons_self] at hl
      cases hl
    · rw [assocLookup_cons_ne _ _ hj] at hl
      exact i3 j hl
  · -- item-memoized ids with a positive path memo carry an item handle
    intro j it hit pj hl
    by_cases hj : j = i
    · subst hj
      obtain ⟨w, hw⟩ := i5 j _ hit
      rw [hmiss] at hw
      cases hw
    · rw [assocLookup_cons_ne _ _ hj] at hl
      obtain ⟨pold, v, h3, h4⟩ := i4 j it hit pj hl
      have hpj : pj < paths2.length := by
        rw [hlen]
        exact Nat.lt_succ_of_lt (lt_of_getElem?_some h3)
      obtain ⟨q, hq⟩ : ∃ q, paths2[pj]? = some q :=
        ⟨_, List.getElem?_eq_getElem hpj⟩
      obtain ⟨p0, hp0, -, hi'⟩ := hent _ q hq
      rw [getElem?_append_left' h3] at hp0
      cases hp0
      exact ⟨q, v, hq, by rw [hi', h4]⟩
  · -- item-memoized ids are path-memoized
    intro j v hv
    obtain ⟨w, hw⟩ := i5 j v hv
    exact ⟨w, assocLookup_cons_of_none _ hmiss j w hw⟩

theorem leafInv_parse_path {raw : RawCrate} {pp : Option PathId} {i : RawId}
    {cid : Option CrateId} {s : ParserState} {p : Option PathId} {s' : ParserState}
    (h : _parse_path raw pp i cid s = Res.ok (p, s'))
    (inv : LeafInv raw s) : LeafInv raw s' := by
  unfold _parse_path at h
  split at h
  · cases h; exact inv
  · rename_i hmiss
    split at h
    · rename_i hnone
      cases h
      obtain ⟨i1, i2, i3, i4, i5⟩ := inv
      refine ⟨i1, ?_, ?_, ?_, ?_⟩
      · intro j pj hl
        by_cases hj : j = i
        · subst hj; rw [assocLookup_cons_self] at hl; cases hl
        · rw [assocLookup_cons_ne _ _ hj] at hl
          exact i2 j pj hl
      · intro j hl
        by_cases hj : j = i
        · subst hj; exact hnone
        · rw [assocLookup_cons_ne _ _ hj] at hl
          exact i3 j hl
      · intro j it hit pj hl
        by_cases hj : j = i
        · subst hj; rw [assocLookup_cons_self] at hl; cases hl
        · rw [assocLookup_cons_ne _ _ hj] at hl
          exact i4 j it hit pj hl
      · intro j v hv
        obtain ⟨w, hw⟩ := i5 j v hv
        exact ⟨w, assocLookup_cons_of_none _ hmiss j w hw⟩
    · rename_i ps hsome
      split at h
      · cases h
      · rename_i item hidx
        split at h
        · cases h
        · cases h
        · rename_i pk hconv
          split at h
          · -- no parent: plain push
            cases h
            exact leafInv_push_aux hmiss hsome hconv
              ({ Path.new pk (String.intercalate ("::") ps.path) with
                  crate_id := cid, span := item.span })
              rfl rfl inv _ _
              (by simp)
              (fun j q hq => ⟨q, hq, rfl, rfl⟩)
          · -- parent: push then children-only update of the parent entry
            dsimp only at h
            split at h
            · cases h
            · rename_i ppid hscrut paths2 hmod
              cases h
              refine leafInv_push_aux hmiss hsome hconv
                ({ Path.new pk (String.intercalate ("::") ps.path) with
                    crate_id := cid, span := item.span })
                rfl rfl inv _ _ ?_ ?_
              · exact (listModifyO_length hmod).trans (by simp)
              intro j q hq
              by_cases hpj : ppid = j
              · subst hpj
                obtain ⟨a, ha, hset⟩ := listModifyO_eq_some hmod
                rw [hset] at hq
                rw [List.getElem?_set_self'] at hq
                rw [ha] at hq
                cases hq
                exact ⟨a, ha, rfl, rfl⟩
              · rw [listModifyO_get_ne hmod hpj] at hq
                exact ⟨q, hq, rfl, rfl⟩

theorem leafInv_parse_crate {raw : RawCrate} {n : Nat} {s : ParserState}
    {c : Option CrateId} {s' : ParserState}
    (h : _parse_crate raw n s = Res.ok (c, s'))
    (inv : LeafInv raw s) : LeafInv raw s' := by
  obtain ⟨hP, hI, hR, hPid, hIid, hU, hD⟩ := _parse_crate_frame h
  unfold LeafInv
  rw [hP, hPid, hIid]
  exact inv

theorem leafInv_parse_item {raw : RawCrate} {i : RawId} {path_id : Option PathId}
    {cid : Option CrateId} {s : ParserState} {it : Option ItemId} {s' : ParserState}
    (h : _parse_item raw i path_id cid s = Res.ok (it, s'))
    (hwf : WFDoc raw)
    (hmemoAny : ∃ w, assocLookup i s.path_ids = some w)
    (hmemoPath : ∀ item0 : RawItem, assocLookup i raw.index = some item0 →
        item0.inner = ItemEnum.OtherLeaf →
        assocLookup i s.path_ids = some path_id)
    (inv : LeafInv raw s) : LeafInv raw s' := by
  obtain ⟨i1, i2, i3, i4, i5⟩ := inv
  have contA : ∀ (q : List (Option PathId × RawId))
      (d : List (PathId × String × RawId)),
      LeafInv raw
        { s with
          unprocessed := q,
          deferred_imports := d,
          item_ids := (i, none) :: s.item_ids } := by
    intro q d
    refine ⟨i1, i2, i3, ?_, ?_⟩
    · intro j it' hit pj hl
      by_cases hj : j = i
      · subst hj; rw [assocLookup_cons_self] at hit; cases hit
      · rw [assocLookup_cons_ne _ _ hj] at hit
        exact i4 j it' hit pj hl
    · intro j v hv
      by_cases hj : j = i
      · subst hj; exact hmemoAny
      · rw [assocLookup_cons_ne _ _ hj] at hv
        exact i5 j v hv
  unfold _parse_item at h
  split at h
  · cases h; exact ⟨i1, i2, i3, i4, i5⟩
  · rename_i hmiss
    split at h
    · cases h
    · rename_i item0 hidx
      split at h
      · cases h; exact contA _ _
      · split at h
        · cases h
        · split at h
          · cases h
          · cases h; exact contA _ _
      · cases h; exact contA _ _
      · cases h; exact contA _ _
      · cases h; exact contA _ _
      · rename_i hleaf
        split at h
        · cases h
        · obtain ⟨ps, hpse, hk1, hk2, hk3, hk4⟩ := hwf i item0 hidx hleaf
          have hmemo' : assocLookup i s.path_ids = some path_id :=
            hmemoPath item0 hidx hleaf
          dsimp only at h
          split at h
          · -- a leaf with no path handle contradicts well-formedness
            exfalso
            have := i3 i hmemo'
            rw [hpse] at this
            cases this
          · rename_i pid'
            split at h
            · cases h
            · rename_i paths' hmod
              cases h
              have hmemo'' : assocLookup i s.path_ids = some (some pid') := hmemo'
              obtain ⟨ps2, pk2, hps2, hconv2, p, hp, hkp⟩ := i2 i pid' hmemo''
              rw [hpse] at hps2
              cases hps2
              have hncont : ¬ isContainer p.kind := by
                rw [hkp]
                exact convert_not_container ps.kind pk2 hconv2 hk1 hk2 hk3 hk4
              obtain ⟨a, ha, hset⟩ := listModifyO_eq_some hmod
              rw [hp] at ha
              cases ha
              refine ⟨?_, ?_, i3, ?_, ?_⟩
              · -- container paths keep no item handle
                intro j q hq hcont
                by_cases hj : pid' = j
                · subst hj
                  rw [hset, List.getElem?_set_self', hp] at hq
                  cases hq
                  exact absurd hcont hncont
                · rw [hset, List.getElem?_set_ne hj] at hq
                  exact i1 j q hq hcont
              · -- memoized kinds unchanged (only an item handle was written)
                intro j pj hl
                obtain ⟨ps', pk', h1, h2, pold, h3, h4⟩ := i2 j pj hl
                by_cases hj : pid' = pj
                · subst hj
                  rw [hp] at h3
                  cases h3
                  refine ⟨ps', pk', h1, h2,
                    { p with item_id := some s.api.items.length }, ?_, h4⟩
                  rw [hset, List.getElem?_set_self', hp]
                  rfl
                · refine ⟨ps', pk', h1, h2, pold, ?_, h4⟩
                  rw [hset, List.getElem?_set_ne hj]
                  exact h3
              · -- positively item-memoized ids carry an item handle
                intro j it' hit pj hl
                by_cases hj : j = i
                · subst hj
                  rw [hmemo''] at hl
                  cases hl
                  rw [hset]
                  exact ⟨{ p with item_id := some s.api.items.length },
                    s.api.items.length,
                    by rw [List.getElem?_set_self', hp]; rfl, rfl⟩
                · rw [assocLookup_cons_ne _ _ hj] at hit
                  obtain ⟨pold, v, h3, h4⟩ := i4 j it' hit pj hl
                  by_cases hjj : pid' = pj
                  · subst hjj
                    rw [hset]
                    exact ⟨{ p with item_id := some s.api.items.length },
                      s.api.items.length,
                      by rw [List.getElem?_set_self', hp]; rfl, rfl⟩
                  · rw [hset]
                    exact ⟨pold, v, by rw [List.getElem?_set_ne hjj]; exact h3, h4⟩
              · -- item-memoized ids are path-memoized
                intro j v hv
                by_cases hj : j = i
                · subst hj
                  exact ⟨some pid', hmemo''⟩
                · rw [assocLookup_cons_ne _ _ hj] at hv
                  exact i5 j v hv

theorem leafInv_parseStep {raw : RawCrate} {pp : Option PathId} {i : RawId}
    {s s' : ParserState} (hwf : WFDoc raw)
    (h : parseStep raw pp i s = Res.ok s') (inv : LeafInv raw s) :
    LeafInv raw s' := by
  unfold parseStep at h
  split at h
  · cases h
  · split at h
    · cases h
    · cases h
    · rename_i cid s1 hc
      split at h
      · cases h
      · cases h
      · rename_i pid s2 hp
        split at h
        · cases h
        · cases h
        · rename_i it s3 hi
          cases h
          have inv1 := leafInv_parse_crate hc inv
          have inv2 := leafInv_parse_path hp inv1
          have memoAfter := _parse_path_memo_after hp
          refine leafInv_parse_item hi hwf ⟨pid, memoAfter⟩ ?_ inv2
          intro item0 hidx0 hleaf0
          match pid, memoAfter with
          | some p0, memoAfter =>
            exact memoAfter
          | none, memoAfter =>
            exfalso
            have hnone := inv2.2.2.1 i memoAfter
            obtain ⟨ps, hps, -⟩ := hwf i item0 hidx0 hleaf0
            rw [hps] at hnone
            cases hnone

theorem leafInv_parseLoop {raw : RawCrate} (hwf : WFDoc raw) :
    ∀ {fuel : Nat} {s s' : ParserState}, parseLoop raw fuel s = Res.ok s' →
      LeafInv raw s → LeafInv raw s' := by
  intro fuel
  induction fuel with
  | zero =>
    intro s s' h inv
    unfold parseLoop at h
    split at h
    · cases h; exact inv
    · cases h
  | succ fuel ih =>
    intro s s' h inv
    unfold parseLoop at h
    split at h
    · cases h; exact inv
    · rename_i parent i rest hq
      split at h
      · rename_i s1 hstep
        exact ih h (leafInv_parseStep hwf hstep inv)
      · cases h
      · cases h

/-- Every path entry after one deferred-import task is an old entry with its
kind and item handle intact (possibly with more children), or the freshly
created import alias. -/
theorem deferredImportStep_entries {pids : List (RawId × Option PathId)}
    {api : Api} {t : PathId × String × RawId} {api' : Api}
    (h : deferredImportStep pids api t = Res.ok api') :
    ∀ (j : Nat) (q : Path), api'.paths[j]? = some q →
      (∃ p, api.paths[j]? = some p ∧ q.kind = p.kind ∧ q.item_id = p.item_id) ∨
      q.kind = PathKind.Import := by
  obtain ⟨m, n, T⟩ := t
  unfold deferredImportStep at h
  dsimp only at h
  split at h
  · cases h
  · cases h
  · split at h
    · cases h
    · rename_i tp htp
      split at h
      · cases h
      · rename_i pp hpp
        split at h
        · cases h
        · rename_i paths' hmod
          cases h
          intro j q hq
          by_cases hmj : m = j
          · subst hmj
            obtain ⟨a, ha, hset⟩ := listModifyO_eq_some hmod
            have haa := (getElem?_append_left' hpp).symm.trans ha
            cases haa
            rw [hset, List.getElem?_set_self', getElem?_append_left' hpp] at hq
            cases hq
            exact Or.inl ⟨pp, hpp, rfl, rfl⟩
          · rw [listModifyO_get_ne hmod hmj] at hq
            by_cases hjl : j < api.paths.length
            · rw [List.getElem?_append_left hjl] at hq
              exact Or.inl ⟨q, hq, rfl, rfl⟩
            · rw [List.getElem?_append_right (Nat.le_of_not_lt hjl)] at hq
              match hd : j - api.paths.length with
              | 0 =>
                rw [hd] at hq
                simp at hq
                rw [← hq]
                exact Or.inr rfl
              | d + 1 =>
                rw [hd] at hq
                simp at hq

/-- Every path entry after the whole deferred pass is an old entry with its
kind and item handle intact, or an import alias. -/
theorem runDeferred_entries {pids : List (RawId × Option PathId)} :
    ∀ {ts : List (PathId × String × RawId)} {api api' : Api},
      runDeferred pids api ts = Res.ok api' →
      ∀ (j : Nat) (q : Path), api'.paths[j]? = some q →
        (∃ p, api.paths[j]? = some p ∧ q.kind = p.kind ∧ q.item_id = p.item_id) ∨
        q.kind = PathKind.Import := by
  intro ts
  induction ts with
  | nil =>
    intro api api' h j q hq
    unfold runDeferred at h
    cases h
    exact Or.inl ⟨q, hq, rfl, rfl⟩
  | cons t ts ih =>
    intro api api' h j q hq
    unfold runDeferred at h
    split at h
    · rename_i api1 hstep
      rcases ih h j q hq with ⟨p1, hp1, hk1, hi1⟩ | himp
      · rcases deferredImportStep_entries hstep j p1 hp1 with ⟨p, hp, hk, hi'⟩ | himp1
        · exact Or.inl ⟨p, hp, hk1.trans hk, hi1.trans hi'⟩
        · exact Or.inr (hk1.trans himp1)
      · exact Or.inr himp
    · cases h
    · cases h

/-- The graph parsed from `docLeafNoPath`. -/
def c4api : Api :=
  (parse_raw (fun _ => Except.ok docLeafNoPath) 10 "" "Cargo.toml").getOkD Api.empty

/-- Counterexample to C4 as stated: `docLeafNoPath` is accepted by parse, and
its root path — of container kind module — carries an item handle, because
the path-less leaf child resolved to the root's path handle and the leaf arm
wrote its item handle there. -/
theorem c4_counterexample :
    parse_raw (fun _ => Except.ok docLeafNoPath) 10 "" "Cargo.toml" =
      ParseResult.ok c4api ∧
    (c4api.paths[0]?).map Path.kind = some PathKind.Module ∧
    (c4api.paths[0]?).map Path.item_id = some (some 0) ∧
    isContainer PathKind.Module :=
  ⟨rfl, rfl, rfl, by decide⟩

/-- C4 (amended): provided the document is well-formed — every leaf
descriptor owns a path-table entry of non-container kind, as real rustdoc
output does — no path of container kind (module, trait, impl, enum) ever
carries an item handle, neither after the work loop nor in the graph
returned by parse; and the path of every resolved leaf does carry an item
handle. -/
theorem c4_container_kinds_amended :
    (∀ (raw : RawCrate) (fuel : Nat) (s' : ParserState),
      WFDoc raw →
      parseLoop raw fuel (initState raw) = Res.ok s' →
      (∀ (j : Nat) (p : Path), s'.api.paths[j]? = some p →
        isContainer p.kind → p.item_id = none) ∧
      (∀ (i : RawId) (it : ItemId), assocLookup i s'.item_ids = some (some it) →
        ∀ pi : PathId, assocLookup i s'.path_ids = some (some pi) →
          ∃ p v, s'.api.paths[pi]? = some p ∧ p.item_id = some v)) ∧
    (∀ (deser : String → Except String RawCrate) (fuel : Nat) (json mp : String)
        (api : Api) (rawC : RawCrate),
      WFDoc rawC →
      parse_raw deser fuel json mp = ParseResult.ok api →
      deser json = Except.ok rawC →
      ∀ (j : Nat) (p : Path), api.paths[j]? = some p →
        isContainer p.kind → p.item_id = none) := by
  have initInv : ∀ raw : RawCrate, LeafInv raw (initState raw) := by
    intro raw
    refine ⟨?_, ?_, ?_, ?_, ?_⟩
    · intro j p hp
      simp [initState, Api.empty] at hp
    · intro i pi hl
      simp [initState, assocLookup] at hl
    · intro i hl
      simp [initState, assocLookup] at hl
    · intro i it hit
      simp [initState, assocLookup] at hit
    · intro i v hv
      simp [initState, assocLookup] at hv
  constructor
  · intro raw fuel s' hwf h
    have inv := leafInv_parseLoop hwf h (initInv raw)
    exact ⟨inv.1, inv.2.2.2.1⟩
  · intro deser fuel json mp api rawC hwf hparse hdeser
    unfold parse_raw RustDocParser.parse at hparse
    rw [hdeser] at hparse
    dsimp only at hparse
    split at hparse
    · cases hparse
    · cases hparse
    · rename_i s hloop
      split at hparse
      · cases hparse
      · cases hparse
      · rename_i api0 hdef
        cases hparse
        have inv := leafInv_parseLoop hwf hloop (initInv rawC)
        intro j p hp hcont
        rcases runDeferred_entries hdef j p hp with ⟨p1, hp1, hk1, hi1⟩ | himp
        · rw [hi1]
          exact inv.1 j p1 hp1 (hk1 ▸ hcont)
        · rw [himp] at hcont
          exact absurd hcont (by decide)

/-- Witness for (amended) C4: in scenario A's final graph state, the root
module path carries no item handle. -/
theorem c4_container_kinds_amended_witness :
    ({ kind := PathKind.Module, path := "lib", crate_id := none,
       item_id := none, span := none, children := [1] } : Path).item_id = none := by
  have hwf : WFDoc docA := by
    intro i item hl hleaf
    have hmem := assocLookup_mem hl
    simp only [docA, List.mem_cons, List.not_mem_nil, or_false,
      Prod.mk.injEq] at hmem
    rcases hmem with ⟨h1, h2⟩ | ⟨h1, h2⟩
    · rw [h2] at hleaf
      cases hleaf
    · exact ⟨{ crate_id := 0, path := ["lib", "f"], kind := ItemKind.Function },
        (by rw [h1]; rfl), by decide, by decide, by decide, by decide⟩
  exact (c4_container_kinds_amended.1 docA 10 docAState hwf rfl).1 0
    { kind := PathKind.Module, path := "lib", crate_id := none,
      item_id := none, span := none, children := [1] }
    rfl (by decide)

/-! ### C1: re-export aliasing through the deferred pass -/

/-- Handle-validity bookkeeping: every parent handle in the work queue, every
parent handle in a recorded deferred task, and every positively memoized path
handle is a valid paths-arena index. -/
def BoundsInv (s : ParserState) : Prop :=
  (∀ e ∈ s.unprocessed, ∀ pm : PathId, e.1 = some pm → pm < s.api.paths.length) ∧
  (∀ e ∈ s.deferred_imports, e.1 < s.api.paths.length) ∧
  (∀ (i : RawId) (pi : PathId), assocLookup i s.path_ids = some (some pi) →
    pi < s.api.paths.length)

theorem boundsInv_parse_path {raw : RawCrate} {pp : Option PathId} {i : RawId}
    {cid : Option CrateId} {s : ParserState} {p : Option PathId} {s' : ParserState}
    (h : _parse_path raw pp i cid s = Res.ok (p, s'))
    (inv : BoundsInv s) : BoundsInv s' := by
  obtain ⟨b1, b2, b3⟩ := inv
  unfold _parse_path at h
  split at h
  · cases h; exact ⟨b1, b2, b3⟩
  · split at h
    · cases h
      refine ⟨b1, b2, ?_⟩
      intro j pj hl
      by_cases hj : j = i
      · subst hj; rw [assocLookup_cons_self] at hl; cases hl
      · rw [assocLookup_cons_ne _ _ hj] at hl
        exact b3 j pj hl
    · split at h
      · cases h
      · split at h
        · cases h
        · cases h
        · have lenfact : ∀ (paths2 : List Path),
              paths2.length = s.api.paths.length + 1 →
              ∀ (newRoot : Option PathId),
              BoundsInv
                { s with
                  api := { s.api with paths := paths2, root_id := newRoot },
                  path_ids := (i, some s.api.paths.length) :: s.path_ids } := by
            intro paths2 hlen newRoot
            refine ⟨?_, ?_, ?_⟩
            · intro e he pm hpm
              have h1 := b1 e he pm hpm
              show pm < paths2.length
              exact hlen.symm ▸ Nat.lt_succ_of_lt h1
            · intro e he
              have h1 := b2 e he
              show e.1 < paths2.length
              exact hlen.symm ▸ Nat.lt_succ_of_lt h1
            · intro j pj hl
              show pj < paths2.length
              by_cases hj : j = i
              · subst hj
                rw [assocLookup_cons_self] at hl
                cases hl
                exact hlen.symm ▸ Nat.lt_succ_self _
              · rw [assocLookup_cons_ne _ _ hj] at hl
                have h1 := b3 j pj hl
                exact hlen.symm ▸ Nat.lt_succ_of_lt h1
          split at h
          · cases h
            exact lenfact _ (by simp) _
          · dsimp only at h
            split at h
            · cases h
            · rename_i ppid hscrut paths2 hmod
              cases h
              exact lenfact _ ((listModifyO_length hmod).trans (by simp)) _

theorem boundsInv_parse_item {raw : RawCrate} {i : RawId} {path_id : Option PathId}
    {cid : Option CrateId} {s : ParserState} {it : Option ItemId} {s' : ParserState}
    (h : _parse_item raw i path_id cid s = Res.ok (it, s'))
    (hvalid : ∀ pm : PathId, path_id = some pm → pm < s.api.paths.length)
    (inv : BoundsInv s) : BoundsInv s' := by
  obtain ⟨b1, b2, b3⟩ := inv
  have enq : ∀ (ids : List RawId) (d : List (PathId × String × RawId)),
      (∀ e ∈ d, e.1 < s.api.paths.length) →
      BoundsInv
        { s with
          unprocessed := s.unprocessed ++ ids.map (fun j => (path_id, j)),
          deferred_imports := d,
          item_ids := (i, it) :: s.item_ids } := by
    intro ids d hd
    refine ⟨?_, hd, b3⟩
    intro e he pm hpm
    rcases List.mem_append.mp he with he | he
    · exact b1 e he pm hpm
    · obtain ⟨j, -, rfl⟩ := List.mem_map.mp he
      exact hvalid pm hpm
  unfold _parse_item at h
  split at h
  · cases h; exact ⟨b1, b2, b3⟩
  · split at h
    · cases h
    · split at h
      · cases h
        exact enq _ _ b2
      · split at h
        · cases h
        · split at h
          · cases h
          · rename_i pid0
            cases h
            refine ⟨?_, ?_, b3⟩
            · intro e he pm hpm
              rcases List.mem_append.mp he with he | he
              · exact b1 e he pm hpm
              · rw [List.mem_singleton] at he
                subst he
                exact hvalid pm hpm
            · intro e he
              rcases List.mem_append.mp he with he | he
              · exact b2 e he
              · rw [List.mem_singleton] at he
                subst he
                exact hvalid pid0 rfl
      · cases h
        exact enq _ _ b2
      · cases h
        exact enq _ _ b2
      · cases h
        exact enq _ _ b2
      · split at h
        · cases h
        · dsimp only at h
          split at h
          · cases h
            exact ⟨b1, b2, b3⟩
          · split at h
            · cases h
            · rename_i pid' hscrut paths' hmod
              cases h
              have hlen : paths'.length = s.api.paths.length := by
                rw [listModifyO_length hmod]
              refine ⟨?_, ?_, ?_⟩
              · intro e he pm hpm
                have h1 := b1 e he pm hpm
                show pm < paths'.length
                exact hlen.symm ▸ h1
              · intro e he
                have h1 := b2 e he
                show e.1 < paths'.length
                exact hlen.symm ▸ h1
              · intro j pj hl
                have h1 := b3 j pj hl
                show pj < paths'.length
                exact hlen.symm ▸ h1

theorem boundsInv_parseStep {raw : RawCrate} {pp : Option PathId} {i : RawId}
    {s s' : ParserState} (h : parseStep raw pp i s = Res.ok s')
    (hparent : ∀ pm : PathId, pp = some pm → pm < s.api.paths.length)
    (inv : BoundsInv s) : BoundsInv s' := by
  unfold parseStep at h
  split at h
  · cases h
  · split at h
    · cases h
    · cases h
    · rename_i cid s1 hc
      split at h
      · cases h
      · cases h
      · rename_i pid s2 hp
        split at h
        · cases h
        · cases h
        · rename_i it s3 hi
          cases h
          obtain ⟨hcP, hcI, hcR, hcPid, hcIid, hcU, hcD⟩ := _parse_crate_frame hc
          have inv1 : BoundsInv s1 := by
            unfold BoundsInv
            rw [hcP, hcPid, hcU, hcD]
            exact inv
          have inv2 := boundsInv_parse_path hp inv1
          have memoAfter := _parse_path_memo_after hp
          refine boundsInv_parse_item hi ?_ inv2
          intro pm hpm
          match pid, memoAfter, hpm with
          | some p0, memoAfter, hpm =>
            cases hpm
            exact inv2.2.2 i pm memoAfter
          | none, memoAfter, hpm =>
            have hle : s.api.paths.length ≤ s2.api.paths.length := by
              have e1 : s1.api.paths.length = s.api.paths.length := by rw [hcP]
              have e2 := ((_parse_path_extends hp).1).2.2.1
              omega
            have h1 := hparent pm hpm
            exact Nat.lt_of_lt_of_le h1 hle

theorem boundsInv_parseLoop {raw : RawCrate} :
    ∀ {fuel : Nat} {s s' : ParserState}, parseLoop raw fuel s = Res.ok s' →
      BoundsInv s → BoundsInv s' := by
  intro fuel
  induction fuel with
  | zero =>
    intro s s' h inv
    unfold parseLoop at h
    split at h
    · cases h; exact inv
    · cases h
  | succ fuel ih =>
    intro s s' h inv
    unfold parseLoop at h
    split at h
    · cases h; exact inv
    · rename_i parent i rest hq
      split at h
      · rename_i s1 hstep
        refine ih h (boundsInv_parseStep hstep ?_ ?_)
        · intro pm hpm
          exact inv.1 (parent, i) (by rw [hq]; exact List.mem_cons_self _ _) pm hpm
        · refine ⟨?_, inv.2.1, inv.2.2⟩
          intro e he pm hpm
          exact inv.1 e (by rw [hq]; exact List.mem_cons_of_mem _ he) pm hpm
      · cases h
      · cases h

/-- Exact effect of one deferred-import task: the target's path handle is
read from the memo table, the brand-new import alias — named
`<parent>::<name>`, with the parent's crate handle, the target's item handle
and a copy of the target's children — is pushed at the old arena length, the
fresh handle is appended to the parent's children, and nothing else
changes. -/
theorem deferredImportStep_spec {pids : List (RawId × Option PathId)}
    {api : Api} {m : PathId} {n : String} {T : RawId} {api1 : Api}
    (h : deferredImportStep pids api (m, n, T) = Res.ok api1) :
    ∃ (p : PathId) (tp pp : Path),
      assocLookup T pids = some (some p) ∧
      api.paths[p]? = some tp ∧
      api.paths[m]? = some pp ∧
      api1.paths.length = api.paths.length + 1 ∧
      api1.paths[api.paths.length]? = some
        { kind := PathKind.Import, path := pp.path ++ ("::") ++ n,
          crate_id := pp.crate_id, item_id := tp.item_id, span := none,
          children := tp.children } ∧
      api1.paths[m]? = some { pp with children := pp.children ++ [api.paths.length] } ∧
      (∀ (j : Nat) (q : Path), api.paths[j]? = some q → m ≠ j →
        api1.paths[j]? = some q) ∧
      api1.root_id = api.root_id ∧ api1.crates = api.crates ∧ api1.items = api.items := by
  unfold deferredImportStep at h
  dsimp only at h
  split at h
  · cases h
  · cases h
  · rename_i p hT
    split at h
    · cases h
    · rename_i tp htp
      split at h
      · cases h
      · rename_i pp hpp
        split at h
        · cases h
        · rename_i paths' hmod
          cases h
          have hm : m < api.paths.length := lt_of_getElem?_some hpp
          refine ⟨p, tp, pp, hT, htp, hpp, ?_, ?_, ?_, ?_, rfl, rfl, rfl⟩
          · show paths'.length = api.paths.length + 1
            rw [listModifyO_length hmod]
            simp
          · show paths'[api.paths.length]? = _
            rw [listModifyO_get_ne hmod (Nat.ne_of_lt hm),
              List.getElem?_concat_length]
            rfl
          · show paths'[m]? = _
            obtain ⟨a, ha, hset⟩ := listModifyO_eq_some hmod
            have haa := (getElem?_append_left' hpp).symm.trans ha
            cases haa
            rw [hset, List.getElem?_set_self', getElem?_append_left' hpp]
            rfl
          · intro j q hq hne
            show paths'[j]? = some q
            rw [listModifyO_get_ne hmod hne]
            exact getElem?_append_left' hq

/-- Entries that are never a task's parent survive the deferred pass
unchanged. -/
theorem runDeferred_untouched {pids : List (RawId × Option PathId)} :
    ∀ {ts : List (PathId × String × RawId)} {api api' : Api} {j : Nat} {q : Path},
      runDeferred pids api ts = Res.ok api' →
      api.paths[j]? = some q → (∀ e ∈ ts, e.1 ≠ j) →
      api'.paths[j]? = some q := by
  intro ts
  induction ts with
  | nil =>
    intro api api' j q h hq hne
    unfold runDeferred at h
    cases h
    exact hq
  | cons t ts ih =>
    intro api api' j q h hq hne
    unfold runDeferred at h
    split at h
    · rename_i api1 hstep
      obtain ⟨m, n, T⟩ := t
      obtain ⟨p, tp, pp, -, -, -, -, -, -, huntouched, -⟩ :=
        deferredImportStep_spec hstep
      exact ih h (huntouched j q hq (hne (m, n, T) (List.mem_cons_self _ _)))
        (fun e he => hne e (List.mem_cons_of_mem _ he))
    · cases h
    · cases h

/-- The alias created for the `k`-th deferred task: processing the first `k`
tasks succeeds, the target's path handle is positively memoized, a fresh
path (a new arena entry, distinct from the target's) of kind import — named
`<parent>::<name>`, with the parent's crate handle, the target's item handle,
and a value-equal copy of the target's children at that moment — appears in
the final graph, and its handle is appended to the parent's children. -/
theorem runDeferred_alias {pids : List (RawId × Option PathId)} :
    ∀ (ts : List (PathId × String × RawId)) (api api' : Api) (k : Nat)
      (m : PathId) (n : String) (T : RawId),
      runDeferred pids api ts = Res.ok api' →
      ts[k]? = some (m, n, T) →
      (∀ e ∈ ts, e.1 < api.paths.length) →
      ∃ (apiK : Api) (p : PathId) (tp pp : Path),
        runDeferred pids api (ts.take k) = Res.ok apiK ∧
        assocLookup T pids = some (some p) ∧
        apiK.paths[p]? = some tp ∧
        apiK.paths[m]? = some pp ∧
        p ≠ apiK.paths.length ∧
        api'.paths[apiK.paths.length]? = some
          { kind := PathKind.Import, path := pp.path ++ ("::") ++ n,
            crate_id := pp.crate_id, item_id := tp.item_id, span := none,
            children := tp.children } ∧
        ∃ pp', api'.paths[m]? = some pp' ∧ apiK.paths.length ∈ pp'.children := by
  intro ts
  induction ts with
  | nil =>
    intro api api' k m n T h hk hb
    simp at hk
  | cons t ts ih =>
    intro api api' k m n T h hk hb
    unfold runDeferred at h
    split at h
    · rename_i api1 hstep
      cases k with
      | zero =>
        simp at hk
        subst hk
        obtain ⟨p, tp, pp, hT, htp, hpp, hlen1, hnew, hpar, huntouched,
          hroot, hcrates, hitems⟩ := deferredImportStep_spec hstep
        refine ⟨api, p, tp, pp, rfl, hT, htp, hpp,
          Nat.ne_of_lt (lt_of_getElem?_some htp), ?_, ?_⟩
        · -- all later tasks have parents inside the original arena, so the
          -- fresh entry survives untouched
          refine runDeferred_untouched h hnew ?_
          intro e he
          exact Nat.ne_of_lt (hb e (List.mem_cons_of_mem _ he))
        · obtain ⟨pp', hget', pext⟩ :=
            (runDeferred_extends h).2.2.2.1 m _ hpar
          obtain ⟨-, -, -, -, ⟨ext, hchild⟩, -⟩ := pext
          refine ⟨pp', hget', ?_⟩
          rw [hchild]
          exact List.mem_append_left _
            (List.mem_append_right _ (List.mem_singleton.mpr rfl))
      | succ k' =>
        simp only [List.getElem?_cons_succ] at hk
        have hb' : ∀ e ∈ ts, e.1 < api1.paths.length := by
          intro e he
          have h1 := hb e (List.mem_cons_of_mem _ he)
          have h2 := (deferredImportStep_extends hstep).2.2.1
          exact Nat.lt_of_lt_of_le h1 h2
        obtain ⟨apiK, p, tp, pp, htake, hT, htp, hpp, hne, hnew, hmem⟩ :=
          ih api1 api' k' m n T h hk hb'
        refine ⟨apiK, p, tp, pp, ?_, hT, htp, hpp, hne, hnew, hmem⟩
        rw [List.take_succ_cons]
        unfold runDeferred
        rw [hstep]
        exact htake
    · cases h
    · cases h

/-- The graph parsed from `docImportWithPath`. -/
def c1api : Api :=
  (parse_raw (fun _ => Except.ok docImportWithPath) 10 "" "Cargo.toml").getOkD Api.empty

/-- Counterexample to C1 as stated: in `docImportWithPath` the module `lib`
re-exports a named item whose target has a path-table entry (`dep::g`), yet
the returned graph contains no path named `lib::g` at all, and nothing new is
appended to `lib`'s children — because the import descriptor's own raw id has
a path-table entry (`lib::reexp`), the alias is attached there instead. -/
theorem c1_counterexample :
    parse_raw (fun _ => Except.ok docImportWithPath) 10 "" "Cargo.toml" =
      ParseResult.ok c1api ∧
    c1api.paths.all (fun p => p.path != "lib::g") = true ∧
    (c1api.paths[0]?).map Path.path = some "lib" ∧
    (c1api.paths[0]?).map Path.children = some [1] ∧
    (c1api.paths[3]?).map Path.path = some "lib::reexp::g" :=
  ⟨rfl, by decide, rfl, rfl, rfl⟩

/-- C1 (amended): provided the import descriptor's raw id has no path-table
entry and is first reached as the module's child, the work-loop step records
the deferred task (module's path handle, imported name, target id) and
enqueues the target under the module's handle; recorded tasks survive the
rest of the loop unchanged, their parent handles are valid arena indices at
the end of the loop, and for each recorded task whose target is positively
memoized the deferred pass creates a brand-new arena entry — distinct from
the target's — of kind import, named `<module>::<name>`, carrying the
module's crate handle, the target's item handle and a value-equal copy of
the target's children as of that moment, and appends its handle to the
module's children in the final graph. -/
theorem c1_reexport_alias_amended :
    (∀ (raw : RawCrate) (i : RawId) (m : PathId) (s s' : ParserState)
        (item : RawItem) (name : String) (T : RawId),
      assocLookup i raw.index = some item →
      item.inner = ItemEnum.Import name (some T) →
      assocLookup i raw.paths = none →
      assocLookup i s.item_ids = none →
      (assocLookup i s.path_ids = none ∨ assocLookup i s.path_ids = some none) →
      parseStep raw (some m) i s = Res.ok s' →
      s'.deferred_imports = s.deferred_imports ++ [(m, name, T)] ∧
      s'.unprocessed = s.unprocessed ++ [(some m, T)]) ∧
    (∀ (raw : RawCrate) (fuel : Nat) (s s' : ParserState),
      parseLoop raw fuel s = Res.ok s' →
      ∃ ext, s'.deferred_imports = s.deferred_imports ++ ext) ∧
    (∀ (raw : RawCrate) (fuel : Nat) (s' : ParserState),
      parseLoop raw fuel (initState raw) = Res.ok s' →
      ∀ e ∈ s'.deferred_imports, e.1 < s'.api.paths.length) ∧
    (∀ (pids : List (RawId × Option PathId))
        (ts : List (PathId × String × RawId)) (api api' : Api) (k : Nat)
        (m : PathId) (n : String) (T : RawId),
      runDeferred pids api ts = Res.ok api' →
      ts[k]? = some (m, n, T) →
      (∀ e ∈ ts, e.1 < api.paths.length) →
      ∃ (apiK : Api) (p : PathId) (tp pp : Path),
        runDeferred pids api (ts.take k) = Res.ok apiK ∧
        assocLookup T pids = some (some p) ∧
        apiK.paths[p]? = some tp ∧
        apiK.paths[m]? = some pp ∧
        p ≠ apiK.paths.length ∧
        api'.paths[apiK.paths.length]? = some
          { kind := PathKind.Import, path := pp.path ++ ("::") ++ n,
            crate_id := pp.crate_id, item_id := tp.item_id, span := none,
            children := tp.children } ∧
        ∃ pp', api'.paths[m]? = some pp' ∧ apiK.paths.length ∈ pp'.children) := by
  refine ⟨?_, ?_, ?_, ?_⟩
  · intro raw i m s s' item name T hidx hinner hnopath hitem hmemo hstep
    unfold parseStep at hstep
    rw [hidx] at hstep
    dsimp only at hstep
    split at hstep
    · cases hstep
    · cases hstep
    · rename_i cid s1 hc
      obtain ⟨hcP, hcI, hcR, hcPid, hcIid, hcU, hcD⟩ := _parse_crate_frame hc
      have hmemo1 : assocLookup i s1.path_ids = none ∨
          assocLookup i s1.path_ids = some none := by
        rw [hcPid]; exact hmemo
      have hitem1 : assocLookup i s1.item_ids = none := by
        rw [hcIid]; exact hitem
      rcases hmemo1 with hm | hm
      · have hp' : _parse_path raw (some m) i cid s1 =
            Res.ok (none, { s1 with path_ids := (i, none) :: s1.path_ids }) := by
          unfold _parse_path
          rw [hm, hnopath]
        split at hstep
        · cases hstep
        · cases hstep
        · rename_i pid s2 hp
          rw [hp'] at hp
          cases hp
          split at hstep
          · cases hstep
          · cases hstep
          · rename_i it s3 hi
            cases hstep
            have hi' : _parse_item raw i (Option.or none (some m)) cid
                { s1 with path_ids := (i, none) :: s1.path_ids } =
                Res.ok (none,
                  { s1 with
                    path_ids := (i, none) :: s1.path_ids,
                    unprocessed := s1.unprocessed ++ [(some m, T)],
                    deferred_imports := s1.deferred_imports ++ [(m, name, T)],
                    item_ids := (i, none) :: s1.item_ids }) := by
              unfold _parse_item
              rw [show assocLookup i
                  ({ s1 with path_ids := (i, none) :: s1.path_ids }
                    : ParserState).item_ids = none from hitem1]
              rw [hidx]
              dsimp only
              rw [hinner]
              rfl
            rw [hi'] at hi
            cases hi
            constructor
            · show s1.deferred_imports ++ [(m, name, T)] =
                s.deferred_imports ++ [(m, name, T)]
              rw [hcD]
            · show s1.unprocessed ++ [(some m, T)] =
                s.unprocessed ++ [(some m, T)]
              rw [hcU]
      · have hp' : _parse_path raw (some m) i cid s1 = Res.ok (none, s1) := by
          unfold _parse_path
          rw [hm]
        split at hstep
        · cases hstep
        · cases hstep
        · rename_i pid s2 hp
          rw [hp'] at hp
          cases hp
          split at hstep
          · cases hstep
          · cases hstep
          · rename_i it s3 hi
            cases hstep
            have hi' : _parse_item raw i (Option.or none (some m)) cid s1 =
                Res.ok (none,
                  { s1 with
                    unprocessed := s1.unprocessed ++ [(some m, T)],
                    deferred_imports := s1.deferred_imports ++ [(m, name, T)],
                    item_ids := (i, none) :: s1.item_ids }) := by
              unfold _parse_item
              rw [hitem1, hidx]
              dsimp only
              rw [hinner]
              rfl
            rw [hi'] at hi
            cases hi
            constructor
            · show s1.deferred_imports ++ [(m, name, T)] =
                s.deferred_imports ++ [(m, name, T)]
              rw [hcD]
            · show s1.unprocessed ++ [(some m, T)] =
                s.unprocessed ++ [(some m, T)]
              rw [hcU]
  · intro raw fuel s s' h
    exact (parseLoop_extends h).2.2.2.2
  · intro raw fuel s' h
    refine (boundsInv_parseLoop h ⟨?_, ?_, ?_⟩).2.1
    · intro e he pm hpm
      simp [initState] at he
      subst he
      cases hpm
    · intro e he
      simp [initState] at he
    · intro i pi hl
      simp [initState, assocLookup] at hl
  · intro pids ts api api' k m n T h hk hb
    exact runDeferred_alias ts api api' k m n T h hk hb

/-- The graph after running the deferred pass on scenario B's final loop
state. -/
def c1wapi : Api :=
  (runDeferred c7s.path_ids c7s.api c7s.deferred_imports).getOkD Api.empty

/-- Witness for (amended) C1 on scenario B's single deferred task. -/
theorem c1_reexport_alias_amended_witness :
    ∃ (apiK : Api) (p : PathId) (tp pp : Path),
      runDeferred c7s.path_ids c7s.api (c7s.deferred_imports.take 0) =
        Res.ok apiK ∧
      assocLookup 2 c7s.path_ids = some (some p) ∧
      apiK.paths[p]? = some tp ∧
      apiK.paths[0]? = some pp ∧
      p ≠ apiK.paths.length ∧
      c1wapi.paths[apiK.paths.length]? = some
        { kind := PathKind.Import, path := pp.path ++ ("::") ++ "g",
          crate_id := pp.crate_id, item_id := tp.item_id, span := none,
          children := tp.children } ∧
      ∃ pp', c1wapi.paths[0]? = some pp' ∧ apiK.paths.length ∈ pp'.children :=
  c1_reexport_alias_amended.2.2.2 c7s.path_ids c7s.deferred_imports c7s.api
    c1wapi 0 0 "g" 2 rfl rfl (by decide)

end CrateApi
